import Mathlib

/-!
Verification of the concept-map grading core of `concept_map_system`.

The Python sources are embedded shallowly:

* `src/concept_map_system/algorithms/concept_map_core.py` — proposition
  normalisation, junction-id parsing, subset matching, map processing and
  the count-based metric formula (`BaseConceptMapScorer`,
  `SimplePropositionScorer`);
* `src/concept_map_system/algorithms/mcclure_algorithm.py` — the 0–3
  per-proposition rubric (`McClureScorer`);
* `src/concept_map_system/algorithms/novak_algorithm.py` — exact-match
  scoring, the limitation bonus and the score-based metric formula
  (`NovakScorer`);
* `src/concept_map_system/algorithms/lea_core.py` and `wlea_core.py` — the
  0–4 set-overlap link rubric (`compare_links`), the exhaustive optimal
  matching solver and the per-assignment scorers.

Python strings are Lean `String`s, Python sets of node-id strings are
`Finset String` (for causal links) or membership-compared `List String`
(for junction backing sets), Python ints are `Nat`/`Int`, floats are `ℚ`,
and raised exceptions are `Except String`.  All string primitives the code
uses (`str.split`, `str.lower`, `str.strip`, `str.startswith`, slicing,
`"_".join`, `sorted`) are re-implemented structurally over `List Char` so
that every definition evaluates by kernel reduction.
-/

/- ===================================================================
   Character-level string helpers (Python `str` semantics, ASCII)
   =================================================================== -/

/-- Code-point comparison of char lists; the order Python uses when
comparing strings (restricted to the concrete ids appearing here). -/
def charListLe : List Char → List Char → Bool
  | [], _ => true
  | _ :: _, [] => false
  | a :: as, b :: bs =>
    if a.toNat < b.toNat then true
    else if b.toNat < a.toNat then false
    else charListLe as bs

/-- `a <= b` on strings, by code points (Python string comparison). -/
def strLe (a b : String) : Bool := charListLe a.data b.data

/-- Helper for `pySplitWs`: accumulates the current word (reversed). -/
def splitWsAux : List Char → List Char → List String
  | [], cur => if cur.isEmpty then [] else [⟨cur.reverse⟩]
  | c :: cs, cur =>
    if c.isWhitespace then
      (if cur.isEmpty then splitWsAux cs [] else ⟨cur.reverse⟩ :: splitWsAux cs [])
    else splitWsAux cs (c :: cur)

/-- Python `str.split()` (no argument): split on whitespace runs, never
producing empty tokens. -/
def pySplitWs (s : String) : List String := splitWsAux s.data []

/-- Insertion of a string into a sorted list, used by `sortStrings`. -/
def insertSorted (x : String) : List String → List String
  | [] => [x]
  | y :: ys => if strLe x y then x :: y :: ys else y :: insertSorted x ys

/-- Python `sorted` on a list of strings.  Insertion sort; since list
elements that compare equal are equal strings, any correct sort returns
the same list as Python's stable sort. -/
def sortStrings (l : List String) : List String := l.foldr insertSorted []

/-- ASCII lower-casing of a character (Python `str.lower` on the ASCII
ids and labels this system processes). -/
def lowerChar (c : Char) : Char :=
  if 65 ≤ c.toNat ∧ c.toNat ≤ 90 then Char.ofNat (c.toNat + 32) else c

/-- Python `str.lower` (ASCII). -/
def pyLower (s : String) : String := ⟨s.data.map lowerChar⟩

/-- Python `str.strip()`: drop leading and trailing whitespace. -/
def pyStrip (s : String) : String :=
  ⟨((s.data.dropWhile (·.isWhitespace)).reverse.dropWhile (·.isWhitespace)).reverse⟩

/-- Python `s.startswith(pre)`. -/
def strStartsWith (s pre : String) : Bool := pre.data.isPrefixOf s.data

/-- Python slicing `s[n:]`. -/
def strDropChars (s : String) (n : Nat) : String := ⟨s.data.drop n⟩

/-- Helper for `splitUnderscore`: accumulates the current token. -/
def splitUnderscoreAux : List Char → List Char → List String
  | [], cur => [⟨cur.reverse⟩]
  | c :: cs, cur =>
    if c = '_' then ⟨cur.reverse⟩ :: splitUnderscoreAux cs [] else splitUnderscoreAux cs (c :: cur)

/-- Python `s.split("_")` (always at least one token, possibly empty). -/
def splitUnderscore (s : String) : List String := splitUnderscoreAux s.data []

/-- Python `"_".join(l)`. -/
def joinUnderscore : List String → String
  | [] => ""
  | [x] => x
  | x :: xs => x ++ "_" ++ joinUnderscore xs

/- ===================================================================
   BaseConceptMapScorer (concept_map_core.py)
   =================================================================== -/

/-- `constants.JUNCTION_PREFIX_FROM` (core/constants.py). -/
def JUNCTION_PREFIX_FROM : String := "t_from_"

/-- `constants.JUNCTION_PREFIX_TO` (core/constants.py). -/
def JUNCTION_PREFIX_TO : String := "t_to_"

/-- `BaseConceptMapScorer.JUNCTION_TYPE` (concept_map_core.py:46). -/
def JUNCTION_TYPE : String := "Junction"

/-- One CSV row (`PropositionData`): `id`, `antes`, `conq`, `type`. -/
structure PropositionData where
  id : String
  antes : String
  conq : String
  type : String
deriving DecidableEq

/-- One expanded link (`ExpandedProposition`). -/
structure ExpandedProposition where
  id : String
  originalId : String
  isExpanded : Bool
  antes : String
  conq : String
  type : String
deriving DecidableEq

/-- `BaseConceptMapScorer.normalize_ids` (concept_map_core.py:84-103):
split a space-separated id string into sorted non-empty tokens. -/
def normalize_ids (idsString : String) : List String :=
  if idsString = "" then []
  else sortStrings ((pySplitWs idsString).filter (fun nodeId => nodeId ≠ ""))

/-- `BaseConceptMapScorer.normalize_type` (concept_map_core.py:325-342):
lower-case then strip. -/
def normalize_type (typeStr : String) : String := pyStrip (pyLower typeStr)

/-- `BaseConceptMapScorer._is_many_to_many` (concept_map_core.py:105-129),
condition only; the warning it logs is modelled as the diagnostic list
returned by `expand_proposition`. -/
def is_many_to_many (antesIds conqIds : List String) : Bool :=
  antesIds.length > 1 && conqIds.length > 1

/-- `BaseConceptMapScorer._expand_many_to_one`
(concept_map_core.py:131-170): one junction link per antecedent into the
`t_to_` node; returns the junction links and the `t_from_` main node. -/
def expand_many_to_one (prop : PropositionData) (antesIds conqIds : List String) :
    List ExpandedProposition × String :=
  let junctionNode := JUNCTION_PREFIX_TO ++ joinUnderscore conqIds
  let mainNode := JUNCTION_PREFIX_FROM ++ joinUnderscore antesIds
  (antesIds.map (fun anteId =>
      { id := prop.id ++ "_" ++ anteId ++ "_A"
        originalId := prop.id
        isExpanded := true
        antes := anteId
        conq := junctionNode
        type := JUNCTION_TYPE }),
   mainNode)

/-- `BaseConceptMapScorer._expand_one_to_many`
(concept_map_core.py:172-211): one junction link per consequent out of
the `t_from_` node; returns the junction links and the `t_to_` main node. -/
def expand_one_to_many (prop : PropositionData) (antesIds conqIds : List String) :
    List ExpandedProposition × String :=
  let mainNode := JUNCTION_PREFIX_TO ++ joinUnderscore conqIds
  let junctionNode := JUNCTION_PREFIX_FROM ++ joinUnderscore antesIds
  ((conqIds.map (fun conqId =>
      { id := prop.id ++ "_" ++ conqId ++ "_C"
        originalId := prop.id
        isExpanded := true
        antes := junctionNode
        conq := conqId
        type := JUNCTION_TYPE })),
   mainNode)

/-- `BaseConceptMapScorer._create_main_link` (concept_map_core.py:213-239). -/
def create_main_link (prop : PropositionData) (antesNode conqNode : String)
    (isExpanded : Bool) : ExpandedProposition :=
  { id := if isExpanded then prop.id ++ "_Main" else prop.id
    originalId := prop.id
    isExpanded := isExpanded
    antes := antesNode
    conq := conqNode
    type := prop.type }

/-- `BaseConceptMapScorer.expand_proposition` (concept_map_core.py:241-295).
Returns the expanded links together with the warning-level diagnostics the
Python code logs (one entry per `logger.warning` call). -/
def expand_proposition (prop : PropositionData) :
    List ExpandedProposition × List String :=
  let antesIds := normalize_ids prop.antes
  let conqIds := normalize_ids prop.conq
  if antesIds = [] ∨ conqIds = [] then ([], [])
  else if is_many_to_many antesIds conqIds then
    ([], ["many-to-many data is not supported; ignored (ID: " ++ prop.id ++ ")"])
  else
    let isAntesMulti := antesIds.length > 1
    let isConqMulti := conqIds.length > 1
    if isAntesMulti then
      let r := expand_many_to_one prop antesIds conqIds
      (r.1 ++ [create_main_link prop r.2 (conqIds.headD "") true], [])
    else if isConqMulti then
      let r := expand_one_to_many prop antesIds conqIds
      (r.1 ++ [create_main_link prop (antesIds.headD "") r.2 true], [])
    else
      ([create_main_link prop (antesIds.headD "") (conqIds.headD "") false], [])

/-- The accumulation loop of `BaseConceptMapScorer.process_map_data`
(concept_map_core.py:309-314): keep rows with non-empty `antes` and
`conq` and concatenate their expansions (diagnostics dropped, as the
Python code only logs them). -/
def collect_expanded_props (csvData : List PropositionData) : List ExpandedProposition :=
  (csvData.filter (fun row => row.antes ≠ "" && row.conq ≠ "")).flatMap
    (fun row => (expand_proposition row).1)

/-- Deduplication key of `process_map_data` (concept_map_core.py:319):
the concatenation `antes + "_" + conq + "_" + type`. -/
def dedup_key (prop : ExpandedProposition) : String :=
  prop.antes ++ "_" ++ prop.conq ++ "_" ++ prop.type

/-- The first-occurrence-wins deduplication of `process_map_data`
(concept_map_core.py:316-323); `seen` carries the keys inserted so far
(Python's insertion-ordered dict). -/
def dedup_props : List ExpandedProposition → List String → List ExpandedProposition
  | [], _ => []
  | p :: rest, seen =>
    if seen.contains (dedup_key p) then dedup_props rest seen
    else p :: dedup_props rest (dedup_key p :: seen)

/-- `BaseConceptMapScorer.process_map_data` (concept_map_core.py:297-323). -/
def process_map_data (csvData : List PropositionData) : List ExpandedProposition :=
  dedup_props (collect_expanded_props csvData) []

/-- `BaseConceptMapScorer._extract_nodes_from_junction_id`
(concept_map_core.py:344-380): parse a `t_from_` / `t_to_` junction id
into its backing node sets; `none` models the Python `(None, None)`
result for a plain or unrecognised node id. -/
def extract_nodes_from_junction_id (nodeId : String) :
    Option (List String × List String) :=
  if strStartsWith nodeId JUNCTION_PREFIX_FROM then
    some ((splitUnderscore (strDropChars nodeId JUNCTION_PREFIX_FROM.data.length)).filter
      (fun x => x ≠ ""), [])
  else if strStartsWith nodeId JUNCTION_PREFIX_TO then
    some ([], (splitUnderscore (strDropChars nodeId JUNCTION_PREFIX_TO.data.length)).filter
      (fun x => x ≠ ""))
  else none

/-- Python `set.issubset` on backing node sets (membership-based, so a
duplicate-free list is not required). -/
def pySubset (s m : List String) : Bool := s.all (fun x => m.contains x)

/-- `BaseConceptMapScorer.is_subset_match` (concept_map_core.py:382-424). -/
def is_subset_match (studentNodeId masterNodeId : String) : Bool :=
  match extract_nodes_from_junction_id studentNodeId,
        extract_nodes_from_junction_id masterNodeId with
  | some (studentAntes, studentConq), some (masterAntes, masterConq) =>
    if studentAntes = [] ∧ studentConq = [] then false
    else if masterAntes = [] ∧ masterConq = [] then false
    else if studentAntes ≠ [] ∧ masterAntes ≠ [] then pySubset studentAntes masterAntes
    else if studentConq ≠ [] ∧ masterConq ≠ [] then pySubset studentConq masterConq
    else false
  | _, _ => false

/-- `BaseConceptMapScorer.nodes_match` (concept_map_core.py:444-470). -/
def nodes_match (studentAntes studentConq masterAntes masterConq : String) : Bool :=
  ((studentAntes == masterAntes) || is_subset_match studentAntes masterAntes) &&
  ((studentConq == masterConq) || is_subset_match studentConq masterConq)

/- ===================================================================
   McClureScorer (mcclure_algorithm.py) and NovakScorer (novak_algorithm.py)
   =================================================================== -/

/-- `McClureScorer.score_proposition` (mcclure_algorithm.py:46-98), score
component only (the Python function also returns a diagnostic string
naming the matched master link, which no claim concerns).  Three scans of
the master map, most specific first: exact match 3, reversed direction 2,
label mismatch 1, otherwise 0. -/
def mcclure_score_proposition (studentProp : ExpandedProposition)
    (masterMap : List ExpandedProposition) : Nat :=
  let studentType := normalize_type studentProp.type
  if masterMap.any (fun masterProp =>
      normalize_type masterProp.type == studentType &&
      nodes_match studentProp.antes studentProp.conq masterProp.antes masterProp.conq) then 3
  else if masterMap.any (fun masterProp =>
      normalize_type masterProp.type == studentType &&
      nodes_match studentProp.antes studentProp.conq masterProp.conq masterProp.antes) then 2
  else if masterMap.any (fun masterProp =>
      nodes_match studentProp.antes studentProp.conq masterProp.antes masterProp.conq) then 1
  else 0

/-- `NovakScorer.score_proposition` (novak_algorithm.py:75-108), score
component only: exact match (label and nodes) 3, otherwise 0.  The
conflict special case only changes the diagnostic string, not the score. -/
def novak_score_proposition (studentProp : ExpandedProposition)
    (masterMap : List ExpandedProposition) : Nat :=
  let studentType := normalize_type studentProp.type
  if masterMap.any (fun masterProp =>
      normalize_type masterProp.type == studentType &&
      nodes_match studentProp.antes studentProp.conq masterProp.antes masterProp.conq) then 3
  else 0

/-- `NovakScorer.count_conflicts` (novak_algorithm.py:58-73):
`CONFLICT_LINK_TYPE = "conflict"` (core/constants.py). -/
def count_conflicts (studentMap : List ExpandedProposition) : Nat :=
  studentMap.countP (fun prop => normalize_type prop.type == "conflict")

/-- `NovakScorer.count_limitations` (novak_algorithm.py:110-135): count
raw propositions whose normalized antecedent/consequent id lists are
many-to-one or one-to-many (skipping empty lists and many-to-many). -/
def count_limitations (originalData : List PropositionData) : Nat :=
  originalData.foldl (fun count prop =>
    let antesIds := normalize_ids prop.antes
    let conqIds := normalize_ids prop.conq
    if antesIds = [] ∨ conqIds = [] then count
    else
      let isAntesMulti := antesIds.length > 1
      let isConqMulti := conqIds.length > 1
      if (isAntesMulti && !isConqMulti) || (!isAntesMulti && isConqMulti) then count + 1
      else count) 0

/-- `NovakScorer.calculate_additional_score` (novak_algorithm.py:187-208):
the limitation bonus, `NOVAK_LIMITATION_BONUS = 4` per counted structure. -/
def novak_calculate_additional_score (studentOriginalData : List PropositionData) : Nat :=
  count_limitations studentOriginalData * 4

/-- The two statistics of `SimplePropositionScorer._score_propositions`
(concept_map_core.py:613-648) used by the claims. -/
structure ScoringStats where
  propositionScore : Nat
  matchedCount : Nat
deriving DecidableEq

/-- `SimplePropositionScorer._score_propositions`
(concept_map_core.py:613-648) for a given per-proposition scorer: total
proposition score and perfect-match count over the student map. -/
def score_propositions (scoreProp : ExpandedProposition → List ExpandedProposition → Nat)
    (perfectMatchScore : Nat) (studentMap masterMap : List ExpandedProposition) : ScoringStats :=
  { propositionScore := (studentMap.map (fun p => scoreProp p masterMap)).sum
    matchedCount := studentMap.countP (fun p => scoreProp p masterMap == perfectMatchScore) }

/-- The score fields of `SimplePropositionScorer._calculate_final_scores`
(concept_map_core.py:650-677). -/
structure FinalScores where
  totalScore : Nat
  maxScore : Nat
deriving DecidableEq

/-- `SimplePropositionScorer._calculate_final_scores`
(concept_map_core.py:650-677): `total = proposition + additional`,
`max = student_count * perfect + additional` (the percentage field, a
plain quotient of these two, is used by no claim). -/
def calculate_final_scores (propositionScore additionalScore studentCount
    perfectMatchScore : Nat) : FinalScores :=
  { totalScore := propositionScore + additionalScore
    maxScore := studentCount * perfectMatchScore + additionalScore }

/-- Clamping of the conflict bonus in `NovakScorer.__init__`
(novak_algorithm.py:48-56): `max(0, min(4, cross_link_score))`. -/
def novak_clamp_cross_link (crossLinkScore : Int) : Nat :=
  (max 0 (min 4 crossLinkScore)).toNat

/-- The integer score fields of the Novak `score_all` result record. -/
structure NovakResult where
  propositionScore : Nat
  matchedCount : Nat
  limitationCount : Nat
  limitationScore : Nat
  conflictCount : Nat
  crossLinkScore : Nat
  totalScore : Nat
  maxScore : Nat
deriving DecidableEq

/-- `NovakScorer.score_all` (novak_algorithm.py:210-259) composed with
`SimplePropositionScorer.score_all` (concept_map_core.py:715-761):
limitation and conflict bonuses, proposition scoring, and the final
total/max scores (`total_score` has the cross-link score added after the
base class computed `total = proposition + limitation` and
`max = student_count * 3 + limitation`). -/
def novak_score_all (crossLinkPointPerItem : Nat)
    (studentMap masterMap : List ExpandedProposition)
    (studentOriginalData : List PropositionData) : NovakResult :=
  let limitationCount := count_limitations studentOriginalData
  let limitationScore := limitationCount * 4
  let conflictCount := count_conflicts studentMap
  let crossLinkScore := conflictCount * crossLinkPointPerItem
  let stats := score_propositions novak_score_proposition 3 studentMap masterMap
  let additionalScore := novak_calculate_additional_score studentOriginalData
  let finalScores :=
    calculate_final_scores stats.propositionScore additionalScore studentMap.length 3
  { propositionScore := stats.propositionScore
    matchedCount := stats.matchedCount
    limitationCount := limitationCount
    limitationScore := limitationScore
    conflictCount := conflictCount
    crossLinkScore := crossLinkScore
    totalScore := finalScores.totalScore + crossLinkScore
    maxScore := finalScores.maxScore }

/-- Precision / recall / F-value record; Python floats modelled as `ℚ`. -/
structure MetricsResult where
  precision : ℚ
  recallValue : ℚ
  fValue : ℚ
deriving DecidableEq

/-- `BaseConceptMapScorer.calculate_metrics` (concept_map_core.py:472-497),
the count-based formula used by McClure. -/
def base_calculate_metrics (matchedCount studentCount masterCount : Nat) : MetricsResult :=
  let precision : ℚ := if studentCount > 0 then (matchedCount : ℚ) / (studentCount : ℚ) else 0
  let recallV : ℚ := if masterCount > 0 then (matchedCount : ℚ) / (masterCount : ℚ) else 0
  { precision := precision
    recallValue := recallV
    fValue := if precision + recallV > 0 then 2 * precision * recallV / (precision + recallV) else 0 }

/-- `NovakScorer.calculate_metrics` (novak_algorithm.py:141-185), the
score-based formula; the `_current_limitation_score` and
`_current_cross_link_score` instance attributes are passed explicitly. -/
def novak_calculate_metrics (matchedCount studentCount masterCount
    limitationScore crossLinkScore : Nat) : MetricsResult :=
  let propositionScore := matchedCount * 3
  let totalEarnedScore := propositionScore + limitationScore + crossLinkScore
  let studentMaxScore := studentCount * 3 + limitationScore + crossLinkScore
  let masterMaxScore := masterCount * 3 + limitationScore
  let precision : ℚ :=
    if studentMaxScore > 0 then (totalEarnedScore : ℚ) / (studentMaxScore : ℚ) else 0
  let recallScore := propositionScore + limitationScore
  let recallV : ℚ :=
    if masterMaxScore > 0 then (recallScore : ℚ) / (masterMaxScore : ℚ) else 0
  { precision := precision
    recallValue := recallV
    fValue := if precision + recallV > 0 then 2 * precision * recallV / (precision + recallV) else 0 }

/- ===================================================================
   LEA / WLEA solver (lea_core.py, wlea_core.py)
   =================================================================== -/

/-- `Link` type alias (lea_core.py:27): `(antes_set, conq_set, link_type)`. -/
abbrev Link := Finset String × Finset String × String

/-- Default link used to render Python's `answers[i]` accesses whose
indices are separately established to be in range. -/
def defaultLink : Link := (∅, ∅, "")

/-- `compare_links` (lea_core.py:38-81 and, textually identical,
wlea_core.py:38-81): the 0-4 set-overlap rubric over
`(antes_set, conq_set, type)` triples. -/
def compare_links (answer student : Link) : Nat :=
  if answer.1 = student.1 ∧ answer.2.1 = student.2.1 then
    if answer.2.2 = student.2.2 then 4 else 3
  else if answer.1 = student.2.1 ∧ answer.2.1 = student.1 then 3
  else if (answer.1 ∩ student.1).Nonempty ∧ (answer.2.1 ∩ student.2.1).Nonempty then
    if answer.2.2 = student.2.2 then 2 else 1
  else if (answer.1 ∩ student.2.1).Nonempty ∧ (answer.2.1 ∩ student.1).Nonempty then 1
  else 0

/-- `itertools.combinations(xs, k)`: all length-`k` subsequences of `xs`,
in the order itertools emits them (lexicographic by position). -/
def combinations : Nat → List Nat → List (List Nat)
  | 0, _ => [[]]
  | _ + 1, [] => []
  | k + 1, x :: xs => (combinations k xs).map (fun c => x :: c) ++ combinations (k + 1) xs

/-- All ways of selecting one element of a list, with the remaining list
(order preserved); helper for `permutations`. -/
def selections : List Nat → List (Nat × List Nat)
  | [] => []
  | x :: xs => (x, xs) :: (selections xs).map (fun p => (p.1, x :: p.2))

/-- Fuelled core of `permutations` (fuel = list length). -/
def permutationsAux : Nat → List Nat → List (List Nat)
  | _, [] => [[]]
  | 0, _ :: _ => []
  | fuel + 1, x :: xs =>
    (selections (x :: xs)).flatMap (fun p => (permutationsAux fuel p.2).map (fun t => p.1 :: t))

/-- `itertools.permutations(xs)` in the order itertools emits them (each
remaining element in list order becomes the next head). -/
def permutations (xs : List Nat) : List (List Nat) := permutationsAux xs.length xs

/-- The in-range core of `_calculate_matching_score` (lea_core.py:197-230):
summed `compare_links` score and the `matching` list over the zipped index
pairs.  The index validation the Python function performs first is
modelled by `lea_calculate_matching_score` below, which is proven to agree
with this function whenever validation passes — as it does on every call
the solver makes (all indices come from `range`/`combinations`). -/
def calculate_matching_score (answers students : List Link)
    (answerIndices studentIndices : List Nat) : Nat × List (Nat × Nat) :=
  (((answerIndices.zip studentIndices).map (fun pr =>
      compare_links (answers.getD pr.1 defaultLink) (students.getD pr.2 defaultLink))).sum,
   answerIndices.zip studentIndices)

/-- `_find_best_matching_generic` (lea_core.py:233-286): fold over all
combinations of `selectionCount` indices from the selection pool and all
permutations of each, keeping the first strictly improving candidate. -/
def find_best_matching_generic (answers students : List Link) (fixedIndices : List Nat)
    (selectionPoolSize selectionCount : Nat) (fixedRole : String) (initialBestScore : Nat) :
    Nat × List (Nat × Nat) × List Nat × List Nat :=
  ((combinations selectionCount (List.range selectionPoolSize)).flatMap permutations).foldl
    (fun best permIndices =>
      let answerIdxList := if fixedRole = "answer" then fixedIndices else permIndices
      let studentIdxList := if fixedRole = "answer" then permIndices else fixedIndices
      let scored := calculate_matching_score answers students answerIdxList studentIdxList
      if scored.1 > best.1 then (scored.1, scored.2, answerIdxList, studentIdxList) else best)
    (initialBestScore, [], [], [])

/-- `calculate_optimal_matching_bruteforce` (lea_core.py:99-176):
`(best_score, best_matching, best_answer_indices, best_student_indices)`. -/
def calculate_optimal_matching_bruteforce (answers students : List Link) :
    Nat × List (Nat × Nat) × List Nat × List Nat :=
  if answers.length = 0 ∨ students.length = 0 then (0, [], [], [])
  else if answers.length ≤ students.length then
    find_best_matching_generic answers students (List.range answers.length)
      students.length answers.length "answer" 0
  else
    find_best_matching_generic answers students (List.range students.length)
      answers.length students.length "student" 0

/-- The per-candidate `(total_score, matching, answer_indices,
student_indices)` tuples the solver iterates over, in its iteration order
(combinations of the larger-side indices ascending, then permutations of
each combination in itertools order). -/
def lea_candidate_outputs (answers students : List Link) :
    List (Nat × List (Nat × Nat) × List Nat × List Nat) :=
  if answers.length ≤ students.length then
    ((combinations answers.length (List.range students.length)).flatMap permutations).map
      (fun permIndices =>
        let scored :=
          calculate_matching_score answers students (List.range answers.length) permIndices
        (scored.1, scored.2, List.range answers.length, permIndices))
  else
    ((combinations students.length (List.range answers.length)).flatMap permutations).map
      (fun permIndices =>
        let scored :=
          calculate_matching_score answers students permIndices (List.range students.length)
        (scored.1, scored.2, permIndices, List.range students.length))

/-- `_validate_indices` (lea_core.py:179-194): raise `IndexError` at the
first index outside `0 ≤ idx < maxIndex`. -/
def validate_indices (indices : List Int) (maxIndex : Nat) (label : String) :
    Except String Unit :=
  match indices.find? (fun idx => idx < 0 || (maxIndex : Int) ≤ idx) with
  | some _ => .error ("IndexError: invalid " ++ label ++ " index")
  | none => .ok ()

/-- `_calculate_matching_score` (lea_core.py:197-230): validate every
index of both lists, then sum `compare_links` over the zipped pairs.
Indices are `Int`, as in Python. -/
def lea_calculate_matching_score (answers students : List Link)
    (answerIndices studentIndices : List Int) : Except String (Nat × List (Int × Int)) :=
  match validate_indices answerIndices answers.length "answer" with
  | .error e => .error e
  | .ok _ =>
    match validate_indices studentIndices students.length "student" with
    | .error e => .error e
    | .ok _ =>
      .ok (((answerIndices.zip studentIndices).map (fun pr =>
          compare_links (answers.getD pr.1.toNat defaultLink)
            (students.getD pr.2.toNat defaultLink))).sum,
        answerIndices.zip studentIndices)

/-- Python list indexing `l[i]`: non-negative indices from the front,
negative indices from the back, `IndexError` (here `none`) outside
`-len ≤ i < len`. -/
def pyGetLink (l : List Link) (i : Int) : Option Link :=
  if 0 ≤ i then l[i.toNat]?
  else if 0 ≤ (l.length : Int) + i then l[((l.length : Int) + i).toNat]? else none

/-- `wlea_core._calculate_matching_score` (wlea_core.py:156-182): no index
validation — each `answers[ans_idx]` / `students[stu_idx]` access is raw
Python list indexing, so only an access that is out of bounds for Python
(beyond negative wrap-around) raises. -/
def wlea_calculate_matching_score (answers students : List Link)
    (answerIndices studentIndices : List Int) : Except String (Nat × List (Int × Int)) :=
  (answerIndices.zip studentIndices).foldlM (fun acc pr =>
    match pyGetLink answers pr.1, pyGetLink students pr.2 with
    | some answerLink, some studentLink =>
      Except.ok (acc.1 + compare_links answerLink studentLink, acc.2 ++ [pr])
    | _, _ => Except.error "IndexError: list index out of range") (0, [])

/- ===================================================================
   Spec-side definitions (written from the claims' words)
   =================================================================== -/

/-- Spec-side restatement of the Rubric-B table (claim C2, spec §4.3): a
flat five-branch priority chain over set equality / reversal / overlap
and label equality. -/
def compare_links_spec (answer student : Link) : Nat :=
  if answer.1 = student.1 ∧ answer.2.1 = student.2.1 ∧ answer.2.2 = student.2.2 then 4
  else if (answer.1 = student.1 ∧ answer.2.1 = student.2.1 ∧ answer.2.2 ≠ student.2.2) ∨
      (answer.1 = student.2.1 ∧ answer.2.1 = student.1) then 3
  else if (answer.1 ∩ student.1).Nonempty ∧ (answer.2.1 ∩ student.2.1).Nonempty ∧
      answer.2.2 = student.2.2 then 2
  else if ((answer.1 ∩ student.1).Nonempty ∧ (answer.2.1 ∩ student.2.1).Nonempty ∧
      answer.2.2 ≠ student.2.2) ∨
      ((answer.1 ∩ student.2.1).Nonempty ∧ (answer.2.1 ∩ student.1).Nonempty) then 1
  else 0

/-- An injective pairing of `min n m` reference/learner link indices
(claim C1, spec §4.4): each reference index and each learner index used
at most once, all in range. -/
def ValidPairing (n m : Nat) (p : List (Nat × Nat)) : Prop :=
  p.length = min n m ∧ (p.map Prod.fst).Nodup ∧ (p.map Prod.snd).Nodup ∧
    ∀ pr ∈ p, pr.1 < n ∧ pr.2 < m

instance (n m : Nat) (p : List (Nat × Nat)) : Decidable (ValidPairing n m p) := by
  unfold ValidPairing; infer_instance

/-- The summed `compare_links` score of a pairing (claim C1). -/
def pairing_score (answers students : List Link) (p : List (Nat × Nat)) : Nat :=
  (p.map (fun pr =>
    compare_links (answers.getD pr.1 defaultLink) (students.getD pr.2 defaultLink))).sum

/-- Backing node set of a `t_from_` junction id: strip the prefix and
split on the separator (claim C7, spec §3). -/
def from_junction_set (nodeId : String) : List String :=
  (splitUnderscore (strDropChars nodeId JUNCTION_PREFIX_FROM.data.length)).filter
    (fun x => x ≠ "")

/-- Backing node set of a `t_to_` junction id (claim C7, spec §3). -/
def to_junction_set (nodeId : String) : List String :=
  (splitUnderscore (strDropChars nodeId JUNCTION_PREFIX_TO.data.length)).filter
    (fun x => x ≠ "")

/-- Spec-side subset-match condition (claim C7): both ids are junction
ids of the same kind and the student's non-empty backing node set is a
subset of the master's. -/
def is_subset_match_spec (studentNodeId masterNodeId : String) : Prop :=
  (strStartsWith studentNodeId JUNCTION_PREFIX_FROM = true ∧
    strStartsWith masterNodeId JUNCTION_PREFIX_FROM = true ∧
    from_junction_set studentNodeId ≠ [] ∧
    ∀ x ∈ from_junction_set studentNodeId, x ∈ from_junction_set masterNodeId) ∨
  (strStartsWith studentNodeId JUNCTION_PREFIX_TO = true ∧
    strStartsWith masterNodeId JUNCTION_PREFIX_TO = true ∧
    to_junction_set studentNodeId ≠ [] ∧
    ∀ x ∈ to_junction_set studentNodeId, x ∈ to_junction_set masterNodeId)

instance (studentNodeId masterNodeId : String) :
    Decidable (is_subset_match_spec studentNodeId masterNodeId) := by
  unfold is_subset_match_spec
  infer_instance

/-- A raw proposition counted by the spec's limitation-bonus rule (claim
C5): the original unexpanded antecedent/consequent lists are many-to-one
or one-to-many (many-to-many and one-to-one excluded). -/
def is_limitation_structure (prop : PropositionData) : Bool :=
  ((normalize_ids prop.antes).length > 1 && (normalize_ids prop.conq).length = 1) ||
  ((normalize_ids prop.antes).length = 1 && (normalize_ids prop.conq).length > 1)

/- ===================================================================
   Helper lemmas
   =================================================================== -/

theorem pySubset_iff (s m : List String) : pySubset s m = true ↔ ∀ x ∈ s, x ∈ m := by
  simp [pySubset, List.elem_iff]

theorem extract_of_from (nodeId : String)
    (h : strStartsWith nodeId JUNCTION_PREFIX_FROM = true) :
    extract_nodes_from_junction_id nodeId = some (from_junction_set nodeId, []) := by
  unfold extract_nodes_from_junction_id from_junction_set
  rw [if_pos h]

theorem extract_of_to (nodeId : String)
    (hF : strStartsWith nodeId JUNCTION_PREFIX_FROM = false)
    (hT : strStartsWith nodeId JUNCTION_PREFIX_TO = true) :
    extract_nodes_from_junction_id nodeId = some ([], to_junction_set nodeId) := by
  unfold extract_nodes_from_junction_id to_junction_set
  rw [if_neg (by simp [hF]), if_pos hT]

theorem extract_of_plain (nodeId : String)
    (hF : strStartsWith nodeId JUNCTION_PREFIX_FROM = false)
    (hT : strStartsWith nodeId JUNCTION_PREFIX_TO = false) :
    extract_nodes_from_junction_id nodeId = none := by
  unfold extract_nodes_from_junction_id
  rw [if_neg (by simp [hF]), if_neg (by simp [hT])]

theorem not_from_and_to (nodeId : String)
    (hF : strStartsWith nodeId JUNCTION_PREFIX_FROM = true) :
    strStartsWith nodeId JUNCTION_PREFIX_TO = false := by
  by_contra h
  have hT : strStartsWith nodeId JUNCTION_PREFIX_TO = true := by
    cases hx : strStartsWith nodeId JUNCTION_PREFIX_TO
    · exact absurd hx h
    · rfl
  have h1 : JUNCTION_PREFIX_FROM.data <+: nodeId.data := List.isPrefixOf_iff_prefix.mp hF
  have h2 : JUNCTION_PREFIX_TO.data <+: nodeId.data := List.isPrefixOf_iff_prefix.mp hT
  obtain ⟨t1, e1⟩ := h1
  obtain ⟨t2, e2⟩ := h2
  rw [← e1] at e2
  have e3 : (JUNCTION_PREFIX_TO.data ++ t2)[2]? = (JUNCTION_PREFIX_FROM.data ++ t1)[2]? := by
    rw [e2]
  rw [List.getElem?_append_left (by decide), List.getElem?_append_left (by decide)] at e3
  revert e3
  decide

theorem is_subset_match_some_some (s m : String) (sa sc ma mc : List String)
    (hs : extract_nodes_from_junction_id s = some (sa, sc))
    (hm : extract_nodes_from_junction_id m = some (ma, mc)) :
    is_subset_match s m =
      (if sa = [] ∧ sc = [] then false
       else if ma = [] ∧ mc = [] then false
       else if sa ≠ [] ∧ ma ≠ [] then pySubset sa ma
       else if sc ≠ [] ∧ mc ≠ [] then pySubset sc mc
       else false) := by
  unfold is_subset_match
  rw [hs, hm]

theorem is_subset_match_none_left (s m : String)
    (hs : extract_nodes_from_junction_id s = none) : is_subset_match s m = false := by
  unfold is_subset_match
  rw [hs]

theorem is_subset_match_none_right (s m : String)
    (hm : extract_nodes_from_junction_id m = none) : is_subset_match s m = false := by
  unfold is_subset_match
  rw [hm]
  cases extract_nodes_from_junction_id s with
  | none => rfl
  | some v => cases v; rfl

theorem from_from_subset_match (s m : String)
    (hsF : strStartsWith s JUNCTION_PREFIX_FROM = true)
    (hmF : strStartsWith m JUNCTION_PREFIX_FROM = true) :
    (is_subset_match s m = true ↔
      from_junction_set s ≠ [] ∧
        ∀ x ∈ from_junction_set s, x ∈ from_junction_set m) := by
  rw [is_subset_match_some_some s m _ _ _ _ (extract_of_from s hsF) (extract_of_from m hmF)]
  by_cases hS : from_junction_set s = []
  · simp [hS]
  · by_cases hM : from_junction_set m = []
    · simp [hS, hM]
      exact List.exists_mem_of_ne_nil _ hS
    · simp [hS, hM, pySubset_iff]

theorem to_to_subset_match (s m : String)
    (hsF : strStartsWith s JUNCTION_PREFIX_FROM = false)
    (hsT : strStartsWith s JUNCTION_PREFIX_TO = true)
    (hmF : strStartsWith m JUNCTION_PREFIX_FROM = false)
    (hmT : strStartsWith m JUNCTION_PREFIX_TO = true) :
    (is_subset_match s m = true ↔
      to_junction_set s ≠ [] ∧
        ∀ x ∈ to_junction_set s, x ∈ to_junction_set m) := by
  rw [is_subset_match_some_some s m _ _ _ _ (extract_of_to s hsF hsT) (extract_of_to m hmF hmT)]
  by_cases hS : to_junction_set s = []
  · simp [hS]
  · by_cases hM : to_junction_set m = []
    · simp [hS, hM]
      exact List.exists_mem_of_ne_nil _ hS
    · simp [hS, hM, pySubset_iff]

theorem from_to_subset_match (s m : String)
    (hsF : strStartsWith s JUNCTION_PREFIX_FROM = true)
    (hmF : strStartsWith m JUNCTION_PREFIX_FROM = false)
    (hmT : strStartsWith m JUNCTION_PREFIX_TO = true) :
    is_subset_match s m = false := by
  rw [is_subset_match_some_some s m _ _ _ _ (extract_of_from s hsF) (extract_of_to m hmF hmT)]
  by_cases hS : from_junction_set s = [] <;> by_cases hM : to_junction_set m = [] <;>
    simp [hS, hM]

theorem to_from_subset_match (s m : String)
    (hsF : strStartsWith s JUNCTION_PREFIX_FROM = false)
    (hsT : strStartsWith s JUNCTION_PREFIX_TO = true)
    (hmF : strStartsWith m JUNCTION_PREFIX_FROM = true) :
    is_subset_match s m = false := by
  rw [is_subset_match_some_some s m _ _ _ _ (extract_of_to s hsF hsT) (extract_of_from m hmF)]
  by_cases hS : to_junction_set s = [] <;> by_cases hM : from_junction_set m = [] <;>
    simp [hS, hM]

theorem normalize_ids_ne_nil_imp (s : String) (h : normalize_ids s ≠ []) : s ≠ "" := by
  intro hs
  apply h
  rw [hs]
  decide

/- ===================================================================
   Claim theorems
   =================================================================== -/

/-- C2: `compare_links` computes exactly the claimed five-branch Rubric-B
table — 4 for identical set pair and equal label; 3 for identical set pair
with unequal label, or exactly reversed set pair (any label); 2 for
same-direction partial overlap with equal label; 1 for same-direction
partial overlap with unequal label, or reversed partial overlap; else 0 —
with earlier rules taking priority, exactly one branch firing. -/
theorem c2_compare_links_rubric (answer student : Link) :
    compare_links answer student = compare_links_spec answer student := by
  unfold compare_links compare_links_spec
  by_cases hA : answer.1 = student.1 ∧ answer.2.1 = student.2.1
  · by_cases hT : answer.2.2 = student.2.2
    · rw [if_pos hA, if_pos hT, if_pos ⟨hA.1, hA.2, hT⟩]
    · rw [if_pos hA, if_neg hT, if_neg (fun h => hT h.2.2),
        if_pos (Or.inl ⟨hA.1, hA.2, hT⟩)]
  · by_cases hB : answer.1 = student.2.1 ∧ answer.2.1 = student.1
    · rw [if_neg hA, if_pos hB, if_neg (fun h => hA ⟨h.1, h.2.1⟩), if_pos (Or.inr hB)]
    · by_cases hP : (answer.1 ∩ student.1).Nonempty ∧ (answer.2.1 ∩ student.2.1).Nonempty
      · by_cases hT : answer.2.2 = student.2.2
        · rw [if_neg hA, if_neg hB, if_pos hP, if_pos hT,
            if_neg (fun h => hA ⟨h.1, h.2.1⟩),
            if_neg (fun h => h.elim (fun hx => hA ⟨hx.1, hx.2.1⟩) hB),
            if_pos ⟨hP.1, hP.2, hT⟩]
        · rw [if_neg hA, if_neg hB, if_pos hP, if_neg hT,
            if_neg (fun h => hA ⟨h.1, h.2.1⟩),
            if_neg (fun h => h.elim (fun hx => hA ⟨hx.1, hx.2.1⟩) hB),
            if_neg (fun h => hT h.2.2),
            if_pos (Or.inl ⟨hP.1, hP.2, hT⟩)]
      · by_cases hQ : (answer.1 ∩ student.2.1).Nonempty ∧ (answer.2.1 ∩ student.1).Nonempty
        · rw [if_neg hA, if_neg hB, if_neg hP, if_pos hQ,
            if_neg (fun h => hA ⟨h.1, h.2.1⟩),
            if_neg (fun h => h.elim (fun hx => hA ⟨hx.1, hx.2.1⟩) hB),
            if_neg (fun h => hP ⟨h.1, h.2.1⟩),
            if_pos (Or.inr hQ)]
        · rw [if_neg hA, if_neg hB, if_neg hP, if_neg hQ,
            if_neg (fun h => hA ⟨h.1, h.2.1⟩),
            if_neg (fun h => h.elim (fun hx => hA ⟨hx.1, hx.2.1⟩) hB),
            if_neg (fun h => hP ⟨h.1, h.2.1⟩),
            if_neg (fun h => h.elim (fun hx => hP ⟨hx.1, hx.2.1⟩) hQ)]

/-- C7: `is_subset_match` returns `true` exactly when both node ids are
junction ids of the same kind (both `t_from_` or both `t_to_`) and the
student's non-empty backing node set is a subset of the master's backing
node set; for a plain or unrecognised node id it returns `false` without
raising, so `nodes_match` falls back to exact string equality on any side
whose student id carries no junction prefix and never silently matches a
malformed junction id. -/
theorem c7_is_subset_match_correct :
    (∀ studentNodeId masterNodeId : String,
      (is_subset_match studentNodeId masterNodeId = true ↔
        is_subset_match_spec studentNodeId masterNodeId)) ∧
    (∀ studentAntes studentConq masterAntes masterConq : String,
      strStartsWith studentAntes JUNCTION_PREFIX_FROM = false →
      strStartsWith studentAntes JUNCTION_PREFIX_TO = false →
      strStartsWith studentConq JUNCTION_PREFIX_FROM = false →
      strStartsWith studentConq JUNCTION_PREFIX_TO = false →
      nodes_match studentAntes studentConq masterAntes masterConq =
        ((studentAntes == masterAntes) && (studentConq == masterConq))) := by
  constructor
  · intro s m
    by_cases hsF : strStartsWith s JUNCTION_PREFIX_FROM = true
    · have hsT := not_from_and_to s hsF
      by_cases hmF : strStartsWith m JUNCTION_PREFIX_FROM = true
      · rw [from_from_subset_match s m hsF hmF]
        unfold is_subset_match_spec
        simp [hsF, hmF, hsT]
      · have hmF' : strStartsWith m JUNCTION_PREFIX_FROM = false := by
          simpa using hmF
        cases hmT : strStartsWith m JUNCTION_PREFIX_TO with
        | false =>
          rw [is_subset_match_none_right s m (extract_of_plain m hmF' hmT)]
          unfold is_subset_match_spec
          simp [hmF', hmT]
        | true =>
          rw [from_to_subset_match s m hsF hmF' hmT]
          unfold is_subset_match_spec
          simp [hmF', hsT]
    · have hsF' : strStartsWith s JUNCTION_PREFIX_FROM = false := by simpa using hsF
      cases hsT : strStartsWith s JUNCTION_PREFIX_TO with
      | false =>
        rw [is_subset_match_none_left s m (extract_of_plain s hsF' hsT)]
        unfold is_subset_match_spec
        simp [hsF', hsT]
      | true =>
        by_cases hmF : strStartsWith m JUNCTION_PREFIX_FROM = true
        · have hmT := not_from_and_to m hmF
          rw [to_from_subset_match s m hsF' hsT hmF]
          unfold is_subset_match_spec
          simp [hsF', hmT]
        · have hmF' : strStartsWith m JUNCTION_PREFIX_FROM = false := by simpa using hmF
          cases hmT : strStartsWith m JUNCTION_PREFIX_TO with
          | false =>
            rw [is_subset_match_none_right s m (extract_of_plain m hmF' hmT)]
            unfold is_subset_match_spec
            simp [hsF', hmF', hmT]
          | true =>
            rw [to_to_subset_match s m hsF' hsT hmF' hmT]
            unfold is_subset_match_spec
            simp [hsF', hsT, hmF', hmT]
  · intro sa sc ma mc h1 h2 h3 h4
    have e1 : is_subset_match sa ma = false :=
      is_subset_match_none_left _ _ (extract_of_plain sa h1 h2)
    have e2 : is_subset_match sc mc = false :=
      is_subset_match_none_left _ _ (extract_of_plain sc h3 h4)
    unfold nodes_match
    rw [e1, e2]
    simp

/-- Witness for C7: the subset-match example of spec §8 and the
plain-node fallback at concrete node ids. -/
theorem c7_is_subset_match_correct_witness :
    is_subset_match "t_from_1" "t_from_1_2" = true ∧
    nodes_match "x" "y" "x" "z" = (("x" == "x") && ("y" == "z")) := by
  constructor
  · exact (c7_is_subset_match_correct.1 "t_from_1" "t_from_1_2").mpr (by decide)
  · exact c7_is_subset_match_correct.2 "x" "y" "x" "z"
      (by decide) (by decide) (by decide) (by decide)

/-- C10: `process_map_data` deduplicates with the concatenated-string key
`antes + "_" + conq + "_" + type`: the one-to-one propositions
`a_b → c` and `a → b_c` (same label `x`) have distinct
(antecedent, consequent, label) triples but equal keys, and the second is
silently dropped from the output. -/
theorem c10_dedup_key_collision :
    process_map_data
        [PropositionData.mk "1" "a_b" "c" "x", PropositionData.mk "2" "a" "b_c" "x"] =
      [ExpandedProposition.mk "1" "1" false "a_b" "c" "x"] ∧
    (expand_proposition (PropositionData.mk "2" "a" "b_c" "x")).1 =
      [ExpandedProposition.mk "2" "2" false "a" "b_c" "x"] ∧
    dedup_key (ExpandedProposition.mk "1" "1" false "a_b" "c" "x") =
      dedup_key (ExpandedProposition.mk "2" "2" false "a" "b_c" "x") ∧
    (("a_b", "c", "x") : String × String × String) ≠ ("a", "b_c", "x") := by
  exact ⟨by decide, by decide, by decide, by decide⟩

/-- C8: a many-to-many proposition (normalized antecedent and consequent
lists both longer than one) produces zero expanded links and exactly one
warning-level diagnostic — no exception — and the `process_map_data`
accumulation of any surrounding input is unchanged by its presence, so
all other propositions are still expanded normally. -/
theorem c8_many_to_many_skipped (prop : PropositionData)
    (hA : 1 < (normalize_ids prop.antes).length)
    (hC : 1 < (normalize_ids prop.conq).length) :
    ((expand_proposition prop).1 = [] ∧ (expand_proposition prop).2.length = 1) ∧
    ∀ pre post : List PropositionData,
      collect_expanded_props (pre ++ prop :: post) = collect_expanded_props (pre ++ post) := by
  have hAne : normalize_ids prop.antes ≠ [] := by
    intro h; rw [h] at hA; simp at hA
  have hCne : normalize_ids prop.conq ≠ [] := by
    intro h; rw [h] at hC; simp at hC
  have hm : is_many_to_many (normalize_ids prop.antes) (normalize_ids prop.conq) = true := by
    simp only [is_many_to_many, Bool.and_eq_true, decide_eq_true_eq]
    omega
  have hexp : expand_proposition prop =
      ([], ["many-to-many data is not supported; ignored (ID: " ++ prop.id ++ ")"]) := by
    unfold expand_proposition
    rw [if_neg (by tauto), if_pos hm]
  refine ⟨⟨by rw [hexp], by simp [hexp]⟩, ?_⟩
  intro pre post
  unfold collect_expanded_props
  rw [List.filter_append, List.filter_append, List.flatMap_append, List.flatMap_append]
  congr 1
  have hpred : (prop.antes ≠ "" && prop.conq ≠ "") = true := by
    simp only [Bool.and_eq_true, decide_eq_true_eq]
    exact ⟨normalize_ids_ne_nil_imp _ hAne, normalize_ids_ne_nil_imp _ hCne⟩
  simp only [List.filter_cons, hpred, if_true, List.flatMap_cons, hexp, List.nil_append]

/-- Witness for C8: the spec §8 example — antecedents `"1 2"`,
consequents `"3 4"` — yields no links, one diagnostic, and leaves a
neighbouring one-to-one row's processing unchanged. -/
theorem c8_many_to_many_skipped_witness :
    ((expand_proposition { id := "P", antes := "1 2", conq := "3 4", type := "c" }).1 = [] ∧
      (expand_proposition { id := "P", antes := "1 2", conq := "3 4", type := "c" }).2.length = 1) ∧
    collect_expanded_props
        [{ id := "P", antes := "1 2", conq := "3 4", type := "c" },
         { id := "Q", antes := "1", conq := "2", type := "c" }] =
      collect_expanded_props [{ id := "Q", antes := "1", conq := "2", type := "c" }] := by
  have h := c8_many_to_many_skipped { id := "P", antes := "1 2", conq := "3 4", type := "c" }
    (by decide) (by decide)
  exact ⟨h.1, h.2 [] [{ id := "Q", antes := "1", conq := "2", type := "c" }]⟩

theorem count_limitations_step (acc : Nat) (prop : PropositionData) :
    (let antesIds := normalize_ids prop.antes
     let conqIds := normalize_ids prop.conq
     if antesIds = [] ∨ conqIds = [] then acc
     else
       let isAntesMulti := antesIds.length > 1
       let isConqMulti := conqIds.length > 1
       if (isAntesMulti && !isConqMulti) || (!isAntesMulti && isConqMulti) then acc + 1
       else acc) = acc + (if is_limitation_structure prop then 1 else 0) := by
  by_cases hA : normalize_ids prop.antes = []
  · have hl : is_limitation_structure prop = false := by
      simp [is_limitation_structure, hA]
    simp [hA, hl]
  · by_cases hC : normalize_ids prop.conq = []
    · have hl : is_limitation_structure prop = false := by
        simp [is_limitation_structure, hC]
      simp [hA, hC, hl]
    · have hA0 : (normalize_ids prop.antes).length ≠ 0 := by
        simpa [List.length_eq_zero] using hA
      have hC0 : (normalize_ids prop.conq).length ≠ 0 := by
        simpa [List.length_eq_zero] using hC
      by_cases h1 : (normalize_ids prop.antes).length > 1
      · by_cases h2 : (normalize_ids prop.conq).length > 1
        · have ha : ¬((normalize_ids prop.antes).length = 1) := by omega
          have hc : ¬((normalize_ids prop.conq).length = 1) := by omega
          simp [is_limitation_structure, hA, hC, h1, h2, ha, hc]
        · have hc : (normalize_ids prop.conq).length = 1 := by omega
          simp [is_limitation_structure, hA, hC, h1, h2, hc]
      · have ha : (normalize_ids prop.antes).length = 1 := by omega
        by_cases h2 : (normalize_ids prop.conq).length > 1
        · simp [is_limitation_structure, hA, hC, h1, h2, ha]
        · have hc : (normalize_ids prop.conq).length = 1 := by omega
          simp [is_limitation_structure, hA, hC, h1, h2, ha, hc]

theorem count_limitations_eq_filter (l : List PropositionData) :
    count_limitations l = (l.filter is_limitation_structure).length := by
  have key : ∀ (t : List PropositionData) (acc : Nat),
      t.foldl (fun count prop =>
        let antesIds := normalize_ids prop.antes
        let conqIds := normalize_ids prop.conq
        if antesIds = [] ∨ conqIds = [] then count
        else
          let isAntesMulti := antesIds.length > 1
          let isConqMulti := conqIds.length > 1
          if (isAntesMulti && !isConqMulti) || (!isAntesMulti && isConqMulti) then count + 1
          else count) acc = acc + (t.filter is_limitation_structure).length := by
    intro t
    induction t with
    | nil => intro acc; simp
    | cons p t ih =>
      intro acc
      rw [List.foldl_cons, List.filter_cons, ih, count_limitations_step]
      by_cases hl : is_limitation_structure p = true
      · simp [hl]
        omega
      · simp [hl]
  exact (key l 0).trans (by omega)

/-- C5: the Novak limitation bonus is 4 points per raw learner
proposition whose original unexpanded antecedent/consequent lists are
many-to-one or one-to-many (many-to-many and one-to-one excluded), and
this amount enters once into the earned total score and once into the
maximum-score denominator. -/
theorem c5_novak_limitation_bonus (crossLinkPointPerItem : Nat)
    (studentMap masterMap : List ExpandedProposition)
    (studentOriginalData : List PropositionData) :
    (novak_score_all crossLinkPointPerItem studentMap masterMap
        studentOriginalData).limitationScore =
      4 * (studentOriginalData.filter is_limitation_structure).length ∧
    (novak_score_all crossLinkPointPerItem studentMap masterMap
        studentOriginalData).totalScore =
      (novak_score_all crossLinkPointPerItem studentMap masterMap
        studentOriginalData).propositionScore +
      (novak_score_all crossLinkPointPerItem studentMap masterMap
        studentOriginalData).limitationScore +
      (novak_score_all crossLinkPointPerItem studentMap masterMap
        studentOriginalData).crossLinkScore ∧
    (novak_score_all crossLinkPointPerItem studentMap masterMap
        studentOriginalData).maxScore =
      studentMap.length * 3 +
      (novak_score_all crossLinkPointPerItem studentMap masterMap
        studentOriginalData).limitationScore := by
  refine ⟨?_, ?_, ?_⟩
  · show count_limitations studentOriginalData * 4 = _
    rw [count_limitations_eq_filter]
    ring
  · rfl
  · rfl

/-- C4: `McClureScorer.score_proposition` returns the first qualifying
rule, most specific first — 3 when some reference link has an equal
case/space-normalized label and `nodes_match` holds in the same
direction; else 2 when some reference link has an equal normalized label
and `nodes_match` holds with antecedent and consequent swapped; else 1
when some reference link has `nodes_match` in the same direction
regardless of label; else 0 — and a learner link identical to some
reference link (same label, same nodes) always scores 3. -/
theorem c4_mcclure_score_rubric (studentProp : ExpandedProposition)
    (masterMap : List ExpandedProposition) :
    (mcclure_score_proposition studentProp masterMap =
      if ∃ mp ∈ masterMap, normalize_type mp.type = normalize_type studentProp.type ∧
          nodes_match studentProp.antes studentProp.conq mp.antes mp.conq = true then 3
      else if ∃ mp ∈ masterMap, normalize_type mp.type = normalize_type studentProp.type ∧
          nodes_match studentProp.antes studentProp.conq mp.conq mp.antes = true then 2
      else if ∃ mp ∈ masterMap,
          nodes_match studentProp.antes studentProp.conq mp.antes mp.conq = true then 1
      else 0) ∧
    (∀ mp ∈ masterMap, mp.type = studentProp.type → mp.antes = studentProp.antes →
      mp.conq = studentProp.conq → mcclure_score_proposition studentProp masterMap = 3) := by
  constructor
  · unfold mcclure_score_proposition
    simp only [List.any_eq_true, Bool.and_eq_true, beq_iff_eq]
  · intro mp hmp ht ha hc
    have hcond : masterMap.any (fun masterProp =>
        normalize_type masterProp.type == normalize_type studentProp.type &&
        nodes_match studentProp.antes studentProp.conq masterProp.antes
          masterProp.conq) = true := by
      rw [List.any_eq_true]
      refine ⟨mp, hmp, ?_⟩
      rw [Bool.and_eq_true, beq_iff_eq, ht, ha, hc]
      exact ⟨rfl, by simp [nodes_match]⟩
    unfold mcclure_score_proposition
    rw [if_pos hcond]

/-- Witness for C4: a learner link identical to the single reference link
scores 3. -/
theorem c4_mcclure_score_rubric_witness :
    mcclure_score_proposition (ExpandedProposition.mk "s" "s" false "A" "B" "causes")
      [ExpandedProposition.mk "m" "m" false "A" "B" "causes"] = 3 := by
  exact (c4_mcclure_score_rubric (ExpandedProposition.mk "s" "s" false "A" "B" "causes")
      [ExpandedProposition.mk "m" "m" false "A" "B" "causes"]).2
    (ExpandedProposition.mk "m" "m" false "A" "B" "causes") (by decide) rfl rfl rfl

theorem guarded_div_eq (x y : Nat) :
    (if y > 0 then (x : ℚ) / (y : ℚ) else 0) = (x : ℚ) / (y : ℚ) := by
  by_cases h : y > 0
  · rw [if_pos h]
  · rw [if_neg h]
    have h0 : y = 0 := by omega
    rw [h0]
    norm_num

theorem guarded_div_nonneg (x y : Nat) :
    0 ≤ (if y > 0 then (x : ℚ) / (y : ℚ) else 0) := by
  rw [guarded_div_eq]
  positivity

/-- C3: the Rubric-A metrics satisfy
`precision = (propositionScore + bonuses) / (studentCount·3 + bonuses)`
with the cross-link bonus in the student denominator,
`recall = (propositionScore + limitationBonus) / (masterCount·3 + limitationBonus)`
without the cross-link bonus, `F = 2PR/(P+R)` with `F = 0` when
`P + R = 0`; and McClure's count-based metric computation equals this
same score-based formula with both bonuses zero. -/
theorem c3_metrics_formula (matchedCount studentCount masterCount
    limitationScore crossLinkScore : Nat) :
    (novak_calculate_metrics matchedCount studentCount masterCount
        limitationScore crossLinkScore).precision =
      ((matchedCount * 3 + limitationScore + crossLinkScore : Nat) : ℚ) /
        ((studentCount * 3 + limitationScore + crossLinkScore : Nat) : ℚ) ∧
    (novak_calculate_metrics matchedCount studentCount masterCount
        limitationScore crossLinkScore).recallValue =
      ((matchedCount * 3 + limitationScore : Nat) : ℚ) /
        ((masterCount * 3 + limitationScore : Nat) : ℚ) ∧
    ((novak_calculate_metrics matchedCount studentCount masterCount
        limitationScore crossLinkScore).precision +
      (novak_calculate_metrics matchedCount studentCount masterCount
        limitationScore crossLinkScore).recallValue = 0 →
      (novak_calculate_metrics matchedCount studentCount masterCount
        limitationScore crossLinkScore).fValue = 0) ∧
    (novak_calculate_metrics matchedCount studentCount masterCount
        limitationScore crossLinkScore).fValue =
      2 * (novak_calculate_metrics matchedCount studentCount masterCount
          limitationScore crossLinkScore).precision *
        (novak_calculate_metrics matchedCount studentCount masterCount
          limitationScore crossLinkScore).recallValue /
        ((novak_calculate_metrics matchedCount studentCount masterCount
          limitationScore crossLinkScore).precision +
          (novak_calculate_metrics matchedCount studentCount masterCount
            limitationScore crossLinkScore).recallValue) ∧
    base_calculate_metrics matchedCount studentCount masterCount =
      novak_calculate_metrics matchedCount studentCount masterCount 0 0 := by
  have hprec : (novak_calculate_metrics matchedCount studentCount masterCount
      limitationScore crossLinkScore).precision =
      ((matchedCount * 3 + limitationScore + crossLinkScore : Nat) : ℚ) /
        ((studentCount * 3 + limitationScore + crossLinkScore : Nat) : ℚ) :=
    guarded_div_eq _ _
  have hrec : (novak_calculate_metrics matchedCount studentCount masterCount
      limitationScore crossLinkScore).recallValue =
      ((matchedCount * 3 + limitationScore : Nat) : ℚ) /
        ((masterCount * 3 + limitationScore : Nat) : ℚ) :=
    guarded_div_eq _ _
  have hPnn : 0 ≤ (novak_calculate_metrics matchedCount studentCount masterCount
      limitationScore crossLinkScore).precision := guarded_div_nonneg _ _
  have hRnn : 0 ≤ (novak_calculate_metrics matchedCount studentCount masterCount
      limitationScore crossLinkScore).recallValue := guarded_div_nonneg _ _
  have ef : (novak_calculate_metrics matchedCount studentCount masterCount
      limitationScore crossLinkScore).fValue =
      if (novak_calculate_metrics matchedCount studentCount masterCount
          limitationScore crossLinkScore).precision +
        (novak_calculate_metrics matchedCount studentCount masterCount
          limitationScore crossLinkScore).recallValue > 0 then
        2 * (novak_calculate_metrics matchedCount studentCount masterCount
            limitationScore crossLinkScore).precision *
          (novak_calculate_metrics matchedCount studentCount masterCount
            limitationScore crossLinkScore).recallValue /
          ((novak_calculate_metrics matchedCount studentCount masterCount
            limitationScore crossLinkScore).precision +
            (novak_calculate_metrics matchedCount studentCount masterCount
              limitationScore crossLinkScore).recallValue)
      else 0 := rfl
  refine ⟨hprec, hrec, ?_, ?_, ?_⟩
  · intro h0
    rw [ef, if_neg (by rw [h0]; norm_num)]
  · by_cases h : (novak_calculate_metrics matchedCount studentCount masterCount
        limitationScore crossLinkScore).precision +
        (novak_calculate_metrics matchedCount studentCount masterCount
          limitationScore crossLinkScore).recallValue > 0
    · rw [ef, if_pos h]
    · have h0 : (novak_calculate_metrics matchedCount studentCount masterCount
          limitationScore crossLinkScore).precision +
          (novak_calculate_metrics matchedCount studentCount masterCount
            limitationScore crossLinkScore).recallValue = 0 :=
        le_antisymm (not_lt.mp h) (add_nonneg hPnn hRnn)
      rw [ef, if_neg h, h0, div_zero]
  · have h3 : (3 : ℚ) ≠ 0 := by norm_num
    have hP : (base_calculate_metrics matchedCount studentCount masterCount).precision =
        (novak_calculate_metrics matchedCount studentCount masterCount 0 0).precision := by
      show (if studentCount > 0 then (matchedCount : ℚ) / (studentCount : ℚ) else 0) =
        if studentCount * 3 + 0 + 0 > 0 then
          ((matchedCount * 3 + 0 + 0 : Nat) : ℚ) / ((studentCount * 3 + 0 + 0 : Nat) : ℚ)
        else 0
      by_cases hs : studentCount > 0
      · rw [if_pos hs, if_pos (by omega)]
        push_cast
        simp only [add_zero]
        rw [mul_div_mul_right _ _ h3]
      · rw [if_neg hs, if_neg (by omega)]
    have hR : (base_calculate_metrics matchedCount studentCount masterCount).recallValue =
        (novak_calculate_metrics matchedCount studentCount masterCount 0 0).recallValue := by
      show (if masterCount > 0 then (matchedCount : ℚ) / (masterCount : ℚ) else 0) =
        if masterCount * 3 + 0 > 0 then
          ((matchedCount * 3 + 0 : Nat) : ℚ) / ((masterCount * 3 + 0 : Nat) : ℚ)
        else 0
      by_cases hs : masterCount > 0
      · rw [if_pos hs, if_pos (by omega)]
        push_cast
        simp only [add_zero]
        rw [mul_div_mul_right _ _ h3]
      · rw [if_neg hs, if_neg (by omega)]
    have hF : (base_calculate_metrics matchedCount studentCount masterCount).fValue =
        (novak_calculate_metrics matchedCount studentCount masterCount 0 0).fValue := by
      show (if (base_calculate_metrics matchedCount studentCount masterCount).precision +
            (base_calculate_metrics matchedCount studentCount masterCount).recallValue > 0 then
          2 * (base_calculate_metrics matchedCount studentCount masterCount).precision *
            (base_calculate_metrics matchedCount studentCount masterCount).recallValue /
            ((base_calculate_metrics matchedCount studentCount masterCount).precision +
              (base_calculate_metrics matchedCount studentCount masterCount).recallValue)
        else 0) =
        if (novak_calculate_metrics matchedCount studentCount masterCount 0 0).precision +
            (novak_calculate_metrics matchedCount studentCount masterCount 0 0).recallValue > 0 then
          2 * (novak_calculate_metrics matchedCount studentCount masterCount 0 0).precision *
            (novak_calculate_metrics matchedCount studentCount masterCount 0 0).recallValue /
            ((novak_calculate_metrics matchedCount studentCount masterCount 0 0).precision +
              (novak_calculate_metrics matchedCount studentCount masterCount 0 0).recallValue)
        else 0
      rw [hP, hR]
    calc base_calculate_metrics matchedCount studentCount masterCount =
        ⟨(base_calculate_metrics matchedCount studentCount masterCount).precision,
         (base_calculate_metrics matchedCount studentCount masterCount).recallValue,
         (base_calculate_metrics matchedCount studentCount masterCount).fValue⟩ := rfl
      _ = ⟨(novak_calculate_metrics matchedCount studentCount masterCount 0 0).precision,
           (novak_calculate_metrics matchedCount studentCount masterCount 0 0).recallValue,
           (novak_calculate_metrics matchedCount studentCount masterCount 0 0).fValue⟩ := by
          rw [hP, hR, hF]
      _ = novak_calculate_metrics matchedCount studentCount masterCount 0 0 := rfl

/-- Witness for C3: metrics at an all-zero run, where `P + R = 0` forces
`F = 0`. -/
theorem c3_metrics_formula_witness : (novak_calculate_metrics 0 0 0 0 0).fValue = 0 := by
  apply (c3_metrics_formula 0 0 0 0 0).2.2.1
  rw [(c3_metrics_formula 0 0 0 0 0).1, (c3_metrics_formula 0 0 0 0 0).2.1]
  norm_num

theorem foldl_max_init_le (l : List Nat) (b : Nat) : b ≤ l.foldl Nat.max b := by
  induction l generalizing b with
  | nil => exact Nat.le_refl b
  | cons x t ih => exact le_trans (Nat.le_max_left b x) (ih (Nat.max b x))

theorem foldl_max_le_of_mem {l : List Nat} {x : Nat} (b : Nat) (h : x ∈ l) :
    x ≤ l.foldl Nat.max b := by
  induction l generalizing b with
  | nil => cases h
  | cons y t ih =>
    rcases List.mem_cons.mp h with rfl | h'
    · exact le_trans (Nat.le_max_right b x) (foldl_max_init_le t (Nat.max b x))
    · exact ih (Nat.max b y) h'

theorem foldl_max_mem (l : List Nat) (b : Nat) :
    l.foldl Nat.max b = b ∨ l.foldl Nat.max b ∈ l := by
  induction l generalizing b with
  | nil => exact Or.inl rfl
  | cons x t ih =>
    rcases ih (Nat.max b x) with h | h
    · have hchoice : Nat.max b x = b ∨ Nat.max b x = x := max_choice b x
      rcases hchoice with hm | hm
      · exact Or.inl (by rw [List.foldl_cons, h, hm])
      · exact Or.inr (by rw [List.foldl_cons, h, hm]; exact List.mem_cons_self x t)
    · exact Or.inr (List.mem_cons_of_mem x h)

/-- Behaviour of the strict-improvement fold used by
`_find_best_matching_generic`: the final score is the running maximum of
the candidate scores; if the score never improves the initial state is
returned unchanged; and once it improves, the result is the output of the
first candidate whose score equals the final score. -/
theorem foldl_best_spec {γ δ : Type} (score : γ → Nat) (out : γ → δ)
    (l : List γ) (b : Nat) (p : δ) :
    (l.foldl (fun st c => if score c > st.1 then (score c, out c) else st) (b, p)).1 =
      (l.map score).foldl Nat.max b ∧
    ((l.foldl (fun st c => if score c > st.1 then (score c, out c) else st) (b, p)).1 = b →
      l.foldl (fun st c => if score c > st.1 then (score c, out c) else st) (b, p) = (b, p)) ∧
    (b < (l.foldl (fun st c => if score c > st.1 then (score c, out c) else st) (b, p)).1 →
      ∃ c0, l.find? (fun c => score c ==
          (l.foldl (fun st c => if score c > st.1 then (score c, out c) else st) (b, p)).1) =
            some c0 ∧
        l.foldl (fun st c => if score c > st.1 then (score c, out c) else st) (b, p) =
          (score c0, out c0)) := by
  induction l generalizing b p with
  | nil =>
    exact ⟨rfl, fun _ => rfl, fun h => absurd h (lt_irrefl b)⟩
  | cons c t ih =>
    by_cases hc : score c > b
    · have hstep : (c :: t).foldl
          (fun st c => if score c > st.1 then (score c, out c) else st) (b, p) =
          t.foldl (fun st c => if score c > st.1 then (score c, out c) else st)
            (score c, out c) := by
        rw [List.foldl_cons, if_pos hc]
      obtain ⟨ih1, ih2, ih3⟩ := ih (score c) (out c)
      have hge : score c ≤ (t.foldl
          (fun st c => if score c > st.1 then (score c, out c) else st)
          (score c, out c)).1 := by
        rw [ih1]
        exact foldl_max_init_le _ _
      refine ⟨?_, ?_, ?_⟩
      · rw [hstep, ih1, List.map_cons, List.foldl_cons]
        have hmax : Nat.max b (score c) = score c := Nat.max_eq_right (le_of_lt hc)
        rw [hmax]
      · intro h
        rw [hstep] at h
        exact absurd (lt_of_lt_of_le hc hge) (by rw [h]; exact lt_irrefl b)
      · intro _
        by_cases heq : score c = (t.foldl
            (fun st c => if score c > st.1 then (score c, out c) else st)
            (score c, out c)).1
        · refine ⟨c, ?_, ?_⟩
          · rw [List.find?_cons_of_pos _ (by rw [hstep]; exact beq_iff_eq.mpr heq)]
          · rw [hstep]
            exact ih2 heq.symm
        · have hlt : score c < (t.foldl
              (fun st c => if score c > st.1 then (score c, out c) else st)
              (score c, out c)).1 := lt_of_le_of_ne hge heq
          obtain ⟨c0, hfind, hout⟩ := ih3 hlt
          refine ⟨c0, ?_, by rw [hstep]; exact hout⟩
          rw [List.find?_cons_of_neg _
            (by rw [hstep]; simp only [ne_eq, beq_iff_eq]; exact heq)]
          rw [hstep]
          exact hfind
    · have hstep : (c :: t).foldl
          (fun st c => if score c > st.1 then (score c, out c) else st) (b, p) =
          t.foldl (fun st c => if score c > st.1 then (score c, out c) else st) (b, p) := by
        rw [List.foldl_cons, if_neg hc]
      obtain ⟨ih1, ih2, ih3⟩ := ih b p
      refine ⟨?_, ?_, ?_⟩
      · rw [hstep, ih1, List.map_cons, List.foldl_cons]
        have hmax : Nat.max b (score c) = b := Nat.max_eq_left (le_of_not_lt hc)
        rw [hmax]
      · intro h
        rw [hstep] at h ⊢
        exact ih2 h
      · intro h
        rw [hstep] at h
        obtain ⟨c0, hfind, hout⟩ := ih3 h
        refine ⟨c0, ?_, by rw [hstep]; exact hout⟩
        have hne : score c ≠ (t.foldl
            (fun st c => if score c > st.1 then (score c, out c) else st) (b, p)).1 := by
          intro he
          rw [← he] at h
          exact absurd (lt_of_lt_of_le h (le_of_not_lt hc)) (lt_irrefl b)
        rw [List.find?_cons_of_neg _
          (by rw [hstep]; simp only [ne_eq, beq_iff_eq]; exact hne)]
        rw [hstep]
        exact hfind

theorem selections_perm :
    ∀ (xs : List Nat) (pr : Nat × List Nat), pr ∈ selections xs → xs.Perm (pr.1 :: pr.2) := by
  intro xs
  induction xs with
  | nil => intro pr hpr; simp [selections] at hpr
  | cons x t ih =>
    intro pr hpr
    simp only [selections, List.mem_cons, List.mem_map] at hpr
    rcases hpr with rfl | ⟨q, hq, rfl⟩
    · exact List.Perm.refl _
    · exact ((ih q hq).cons x).trans (List.Perm.swap q.1 x q.2)

theorem selections_cover :
    ∀ (xs : List Nat) (a : Nat), a ∈ xs → ∃ rest, (a, rest) ∈ selections xs := by
  intro xs
  induction xs with
  | nil => intro a ha; cases ha
  | cons x t ih =>
    intro a ha
    rcases List.mem_cons.mp ha with rfl | ha'
    · exact ⟨t, List.mem_cons_self _ _⟩
    · obtain ⟨rest, hrest⟩ := ih a ha'
      refine ⟨x :: rest, ?_⟩
      simp only [selections, List.mem_cons, List.mem_map]
      exact Or.inr ⟨(a, rest), hrest, rfl⟩

theorem permutationsAux_perm :
    ∀ (fuel : Nat) (xs l : List Nat), xs.length = fuel →
      l ∈ permutationsAux fuel xs → l.Perm xs := by
  intro fuel
  induction fuel with
  | zero =>
    intro xs l hlen hl
    have hxs : xs = [] := List.length_eq_zero.mp hlen
    subst hxs
    simp only [permutationsAux, List.mem_singleton] at hl
    subst hl
    exact List.Perm.refl _
  | succ n ih =>
    intro xs l hlen hl
    cases xs with
    | nil => simp at hlen
    | cons x t =>
      simp only [permutationsAux, List.mem_flatMap, List.mem_map] at hl
      obtain ⟨pr, hpr, τ, hτ, rfl⟩ := hl
      have hperm := selections_perm _ _ hpr
      have hlen2 : pr.2.length = n := by
        have h1 := hperm.length_eq
        simp only [List.length_cons] at h1 hlen
        omega
      exact ((ih pr.2 τ hlen2 hτ).cons pr.1).trans hperm.symm

theorem permutationsAux_complete :
    ∀ (fuel : Nat) (xs l : List Nat), xs.length = fuel →
      l.Perm xs → l ∈ permutationsAux fuel xs := by
  intro fuel
  induction fuel with
  | zero =>
    intro xs l hlen hperm
    have hxs : xs = [] := List.length_eq_zero.mp hlen
    subst hxs
    have hl : l = [] := List.perm_nil.mp hperm
    subst hl
    simp [permutationsAux]
  | succ n ih =>
    intro xs l hlen hperm
    cases xs with
    | nil => simp at hlen
    | cons x t =>
      cases l with
      | nil =>
        have := hperm.length_eq
        simp at this
      | cons a τ =>
        have ha : a ∈ x :: t := hperm.subset (List.mem_cons_self a τ)
        obtain ⟨rest, hrest⟩ := selections_cover _ _ ha
        have hperm2 := selections_perm _ _ hrest
        have hτ : τ.Perm rest := (hperm.trans hperm2).cons_inv
        have hlenr : rest.length = n := by
          have h1 := hperm2.length_eq
          simp only [List.length_cons] at h1 hlen
          omega
        simp only [permutationsAux, List.mem_flatMap, List.mem_map]
        exact ⟨(a, rest), hrest, τ, ih rest τ hlenr hτ, rfl⟩

theorem mem_permutations (xs l : List Nat) : l ∈ permutations xs ↔ l.Perm xs :=
  ⟨permutationsAux_perm xs.length xs l rfl, permutationsAux_complete xs.length xs l rfl⟩

theorem mem_combinations_iff :
    ∀ (xs : List Nat) (k : Nat) (l : List Nat),
      l ∈ combinations k xs ↔ l.Sublist xs ∧ l.length = k := by
  intro xs
  induction xs with
  | nil =>
    intro k l
    cases k with
    | zero =>
      simp only [combinations, List.mem_singleton]
      constructor
      · rintro rfl; exact ⟨List.Sublist.refl _, rfl⟩
      · rintro ⟨hsub, hlen⟩
        exact List.length_eq_zero.mp hlen
    | succ k =>
      simp only [combinations, List.not_mem_nil, false_iff, not_and]
      intro hsub
      have := List.sublist_nil.mp hsub
      subst this
      simp
  | cons x t ih =>
    intro k l
    cases k with
    | zero =>
      simp only [combinations, List.mem_singleton]
      constructor
      · rintro rfl; exact ⟨List.nil_sublist _, rfl⟩
      · rintro ⟨hsub, hlen⟩
        exact List.length_eq_zero.mp hlen
    | succ k =>
      simp only [combinations, List.mem_append, List.mem_map]
      constructor
      · rintro (⟨c, hc, rfl⟩ | h)
        · obtain ⟨hsub, hlen⟩ := (ih k c).mp hc
          exact ⟨hsub.cons₂ x, by simp [hlen]⟩
        · obtain ⟨hsub, hlen⟩ := (ih (k + 1) l).mp h
          exact ⟨hsub.trans (List.sublist_cons_self x t), hlen⟩
      · rintro ⟨hsub, hlen⟩
        rcases List.sublist_cons_iff.mp hsub with h | ⟨r, rfl, hr⟩
        · exact Or.inr ((ih (k + 1) l).mpr ⟨h, hlen⟩)
        · refine Or.inl ⟨r, (ih k r).mpr ⟨hr, ?_⟩, rfl⟩
          simpa using hlen

theorem sorted_bounded_sublist_aux (l : List Nat) :
    ∀ (s n : Nat), List.Pairwise (· < ·) l → (∀ x ∈ l, s ≤ x ∧ x < s + n) →
      l.Sublist (List.range' s n) := by
  induction l with
  | nil => intro s n _ _; exact List.nil_sublist _
  | cons a t ih =>
    intro s n hp hb
    obtain ⟨ha1, ha2⟩ := hb a (List.mem_cons_self a t)
    have hsplit : List.range' s (a - s) ++ List.range' a (n - (a - s)) = List.range' s n := by
      have h0 := List.range'_append s (a - s) (n - (a - s)) 1
      have e1 : s + 1 * (a - s) = a := by omega
      have e2 : n - (a - s) + (a - s) = n := by omega
      rw [e1, e2] at h0
      exact h0
    have hcons : List.range' a (n - (a - s)) = a :: List.range' (a + 1) (n - (a - s) - 1) := by
      conv_lhs => rw [show n - (a - s) = (n - (a - s) - 1) + 1 from by omega]
      rw [List.range'_succ]
    obtain ⟨hhead, htail⟩ := List.pairwise_cons.mp hp
    have hsub_t : t.Sublist (List.range' (a + 1) (n - (a - s) - 1)) := by
      apply ih (a + 1) (n - (a - s) - 1) htail
      intro x hx
      obtain ⟨h1, h2⟩ := hb x (List.mem_cons_of_mem a hx)
      have h3 := hhead x hx
      omega
    have h1 : (a :: t).Sublist (a :: List.range' (a + 1) (n - (a - s) - 1)) :=
      hsub_t.cons₂ a
    have h2 : (a :: t).Sublist (List.range' a (n - (a - s))) := by
      rw [hcons]
      exact h1
    rw [← hsplit]
    exact h2.trans (List.sublist_append_right _ _)

theorem sorted_bounded_sublist_range (l : List Nat) (n : Nat)
    (hs : List.Pairwise (· < ·) l) (hb : ∀ x ∈ l, x < n) :
    l.Sublist (List.range n) := by
  rw [List.range_eq_range']
  exact sorted_bounded_sublist_aux l 0 n hs
    (fun x hx => ⟨Nat.zero_le x, by simpa using hb x hx⟩)

theorem sorted_bounded_eq_range (l : List Nat) (n : Nat)
    (hs : List.Pairwise (· < ·) l) (hb : ∀ x ∈ l, x < n) (hlen : l.length = n) :
    l = List.range n :=
  (sorted_bounded_sublist_range l n hs hb).eq_of_length
    (by rw [hlen, List.length_range])

/-- The solver's candidate index lists — permutations of size-`k`
combinations of the pool — are exactly the duplicate-free length-`k`
lists of indices below the pool size. -/
theorem mem_enum_iff (k pool : Nat) (σ : List Nat) :
    σ ∈ (combinations k (List.range pool)).flatMap permutations ↔
      σ.Nodup ∧ σ.length = k ∧ ∀ x ∈ σ, x < pool := by
  rw [List.mem_flatMap]
  constructor
  · rintro ⟨c, hc, hσ⟩
    obtain ⟨hsub, hlen⟩ := (mem_combinations_iff _ _ _).mp hc
    have hperm : σ.Perm c := (mem_permutations _ _).mp hσ
    have hcnodup : c.Nodup := List.Nodup.sublist hsub (List.nodup_range pool)
    refine ⟨hperm.nodup_iff.mpr hcnodup, hperm.length_eq.trans hlen, ?_⟩
    intro x hx
    exact List.mem_range.mp (hsub.subset (hperm.subset hx))
  · rintro ⟨hnd, hlen, hb⟩
    have hcperm : (σ.mergeSort (fun a b => decide (a ≤ b))).Perm σ := List.mergeSort_perm σ _
    have hsorted := @List.sorted_mergeSort Nat (fun a b => decide (a ≤ b))
      (by intro a b c hab hbc; simp only [decide_eq_true_eq] at *; omega)
      (by intro a b; rcases Nat.le_total a b with h | h <;> simp [h]) σ
    have hle : List.Pairwise (fun a b : Nat => a ≤ b)
        (σ.mergeSort (fun a b => decide (a ≤ b))) :=
      hsorted.imp (by intro a b h; simpa using h)
    have hcnodup : (σ.mergeSort (fun a b => decide (a ≤ b))).Nodup :=
      hcperm.nodup_iff.mpr hnd
    have hlt : List.Pairwise (· < ·) (σ.mergeSort (fun a b => decide (a ≤ b))) := by
      have hne : List.Pairwise (fun a b : Nat => a ≠ b)
          (σ.mergeSort (fun a b => decide (a ≤ b))) := hcnodup
      exact (hle.and hne).imp (fun h => lt_of_le_of_ne h.1 h.2)
    have hcb : ∀ x ∈ σ.mergeSort (fun a b => decide (a ≤ b)), x < pool :=
      fun x hx => hb x (hcperm.subset hx)
    have hsub : (σ.mergeSort (fun a b => decide (a ≤ b))).Sublist (List.range pool) :=
      sorted_bounded_sublist_range _ pool hlt hcb
    have hc : σ.mergeSort (fun a b => decide (a ≤ b)) ∈ combinations k (List.range pool) :=
      (mem_combinations_iff _ _ _).mpr ⟨hsub, hcperm.length_eq.trans hlen⟩
    exact ⟨_, hc, (mem_permutations _ _).mpr hcperm.symm⟩

theorem pairs_eq_zip (p : List (Nat × Nat)) : p = (p.map Prod.fst).zip (p.map Prod.snd) := by
  have h := List.zip_unzip p
  rw [List.unzip_eq_map] at h
  exact h.symm

/-- Reordering an injective pairing so that its first components become
`range n` preserves the summed score; the reordered second components
are a permutation of the original ones. -/
theorem sort_pairs_by_fst (f : Nat × Nat → Nat) (p : List (Nat × Nat)) (n : Nat)
    (hnd : (p.map Prod.fst).Nodup) (hlen : p.length = n) (hb : ∀ pr ∈ p, pr.1 < n) :
    ∃ σ, σ.Perm (p.map Prod.snd) ∧
      (((List.range n).zip σ).map f).sum = (p.map f).sum ∧ σ.length = n := by
  have hq : (p.mergeSort (fun a b => decide (a.1 ≤ b.1))).Perm p := List.mergeSort_perm p _
  have hsorted := @List.sorted_mergeSort (Nat × Nat) (fun a b => decide (a.1 ≤ b.1))
    (by intro a b c hab hbc; simp only [decide_eq_true_eq] at *; omega)
    (by intro a b; rcases Nat.le_total a.1 b.1 with h | h <;> simp [h]) p
  have hfst_le : List.Pairwise (fun a b : Nat => a ≤ b)
      ((p.mergeSort (fun a b => decide (a.1 ≤ b.1))).map Prod.fst) := by
    rw [List.pairwise_map]
    exact hsorted.imp (by intro a b h; simpa using h)
  have hfst_nodup : ((p.mergeSort (fun a b => decide (a.1 ≤ b.1))).map Prod.fst).Nodup :=
    (hq.map Prod.fst).nodup_iff.mpr hnd
  have hfst_lt : List.Pairwise (· < ·)
      ((p.mergeSort (fun a b => decide (a.1 ≤ b.1))).map Prod.fst) :=
    (hfst_le.and hfst_nodup).imp (fun h => lt_of_le_of_ne h.1 h.2)
  have hfst_b : ∀ x ∈ (p.mergeSort (fun a b => decide (a.1 ≤ b.1))).map Prod.fst, x < n := by
    intro x hx
    obtain ⟨pr, hpr, rfl⟩ := List.mem_map.mp hx
    exact hb pr (hq.subset hpr)
  have hfst_len : ((p.mergeSort (fun a b => decide (a.1 ≤ b.1))).map Prod.fst).length = n := by
    rw [List.length_map, hq.length_eq, hlen]
  have hexact : (p.mergeSort (fun a b => decide (a.1 ≤ b.1))).map Prod.fst = List.range n :=
    sorted_bounded_eq_range _ n hfst_lt hfst_b hfst_len
  refine ⟨(p.mergeSort (fun a b => decide (a.1 ≤ b.1))).map Prod.snd, hq.map Prod.snd, ?_,
    by rw [List.length_map, hq.length_eq, hlen]⟩
  have hzip : (List.range n).zip ((p.mergeSort (fun a b => decide (a.1 ≤ b.1))).map Prod.snd) =
      p.mergeSort (fun a b => decide (a.1 ≤ b.1)) := by
    rw [← hexact]
    exact (pairs_eq_zip _).symm
  rw [hzip]
  exact (hq.map f).sum_eq

theorem cms_fst (answers students : List Link) (aIdx sIdx : List Nat) :
    (calculate_matching_score answers students aIdx sIdx).1 =
      pairing_score answers students (aIdx.zip sIdx) := rfl

theorem find_best_answer_role (answers students : List Link) (fixedIndices : List Nat)
    (pool k : Nat) :
    find_best_matching_generic answers students fixedIndices pool k "answer" 0 =
      ((combinations k (List.range pool)).flatMap permutations).foldl
        (fun st π =>
          if (calculate_matching_score answers students fixedIndices π).1 > st.1 then
            ((calculate_matching_score answers students fixedIndices π).1,
              (calculate_matching_score answers students fixedIndices π).2, fixedIndices, π)
          else st)
        (0, [], [], []) := rfl

theorem find_best_student_role (answers students : List Link) (fixedIndices : List Nat)
    (pool k : Nat) :
    find_best_matching_generic answers students fixedIndices pool k "student" 0 =
      ((combinations k (List.range pool)).flatMap permutations).foldl
        (fun st π =>
          if (calculate_matching_score answers students π fixedIndices).1 > st.1 then
            ((calculate_matching_score answers students π fixedIndices).1,
              (calculate_matching_score answers students π fixedIndices).2, π, fixedIndices)
          else st)
        (0, [], [], []) := rfl

theorem zip_range_valid_pairing (n m : Nat) (σ : List Nat) (hnm : n ≤ m)
    (hnd : σ.Nodup) (hlen : σ.length = n) (hb : ∀ x ∈ σ, x < m) :
    ValidPairing n m ((List.range n).zip σ) := by
  refine ⟨?_, ?_, ?_, ?_⟩
  · rw [List.length_zip, List.length_range, hlen, min_self]
    exact (min_eq_left hnm).symm
  · rw [List.map_fst_zip _ _ (by simp [hlen])]
    exact List.nodup_range n
  · rw [List.map_snd_zip _ _ (by simp [hlen])]
    exact hnd
  · intro pr hpr
    obtain ⟨h1, h2⟩ := List.of_mem_zip hpr
    exact ⟨List.mem_range.mp h1, hb _ h2⟩

theorem zip_range_valid_pairing' (n m : Nat) (σ : List Nat) (hmn : m ≤ n)
    (hnd : σ.Nodup) (hlen : σ.length = m) (hb : ∀ x ∈ σ, x < n) :
    ValidPairing n m (σ.zip (List.range m)) := by
  refine ⟨?_, ?_, ?_, ?_⟩
  · rw [List.length_zip, List.length_range, hlen, min_self]
    exact (min_eq_right hmn).symm
  · rw [List.map_fst_zip _ _ (by simp [hlen])]
    exact hnd
  · rw [List.map_snd_zip _ _ (by simp [hlen])]
    exact List.nodup_range m
  · intro pr hpr
    obtain ⟨h1, h2⟩ := List.of_mem_zip hpr
    exact ⟨hb _ h1, List.mem_range.mp h2⟩

theorem zip_swap_map_sum (f : Nat × Nat → Nat) :
    ∀ (σ τ : List Nat), ((σ.zip τ).map f).sum =
      ((τ.zip σ).map (fun pr => f (pr.2, pr.1))).sum := by
  intro σ
  induction σ with
  | nil => intro τ; cases τ <;> simp
  | cons a as ih =>
    intro τ
    cases τ with
    | nil => simp
    | cons b bs => simp [ih bs]

/-- C1: for non-empty reference and learner link lists the brute-force
solver returns a best score equal to the maximum, over all injective
pairings of `min n m` reference indices with learner indices, of the
summed `compare_links` scores (stated as: it bounds every such pairing
from above and is attained by one); for an empty input it returns score 0
with empty assignment and empty used-index lists. -/
theorem c1_bruteforce_optimal (answers students : List Link) :
    ((answers = [] ∨ students = []) →
      calculate_optimal_matching_bruteforce answers students = (0, [], [], [])) ∧
    (answers ≠ [] → students ≠ [] →
      (∀ p, ValidPairing answers.length students.length p →
        pairing_score answers students p ≤
          (calculate_optimal_matching_bruteforce answers students).1) ∧
      (∃ p, ValidPairing answers.length students.length p ∧
        pairing_score answers students p =
          (calculate_optimal_matching_bruteforce answers students).1)) := by
  constructor
  · intro h
    unfold calculate_optimal_matching_bruteforce
    rcases h with h | h <;> simp [h]
  · intro hA hS
    have hne : ¬(answers.length = 0 ∨ students.length = 0) := by
      rw [not_or]
      constructor
      · simpa [List.length_eq_zero] using hA
      · simpa [List.length_eq_zero] using hS
    by_cases hnm : answers.length ≤ students.length
    · have hcase : calculate_optimal_matching_bruteforce answers students =
          find_best_matching_generic answers students (List.range answers.length)
            students.length answers.length "answer" 0 := by
        unfold calculate_optimal_matching_bruteforce
        rw [if_neg hne, if_pos hnm]
      obtain ⟨h1, h2, h3⟩ := foldl_best_spec
        (fun π => (calculate_matching_score answers students (List.range answers.length) π).1)
        (fun π => ((calculate_matching_score answers students (List.range answers.length) π).2,
          List.range answers.length, π))
        ((combinations answers.length (List.range students.length)).flatMap permutations)
        0 ([], [], [])
      rw [hcase, find_best_answer_role]
      constructor
      · intro p hp
        obtain ⟨hplen, hfnd, hsnd, hbnd⟩ := hp
        obtain ⟨σ, hσperm, hσsum, hσlen⟩ := sort_pairs_by_fst
          (fun pr => compare_links (answers.getD pr.1 defaultLink)
            (students.getD pr.2 defaultLink))
          p answers.length hfnd (by rw [hplen]; exact min_eq_left hnm)
          (fun pr hpr => (hbnd pr hpr).1)
        have hσnodup : σ.Nodup := hσperm.nodup_iff.mpr hsnd
        have hσb : ∀ x ∈ σ, x < students.length := by
          intro x hx
          obtain ⟨pr, hpr, rfl⟩ := List.mem_map.mp (hσperm.subset hx)
          exact (hbnd pr hpr).2
        have hσmem : σ ∈ (combinations answers.length
            (List.range students.length)).flatMap permutations :=
          (mem_enum_iff _ _ _).mpr ⟨hσnodup, hσlen, hσb⟩
        rw [h1]
        have hscore : pairing_score answers students p =
            (calculate_matching_score answers students (List.range answers.length) σ).1 :=
          hσsum.symm
        rw [hscore]
        exact foldl_max_le_of_mem 0 (List.mem_map_of_mem _ hσmem)
      · rcases foldl_max_mem (((combinations answers.length
            (List.range students.length)).flatMap permutations).map
            (fun π => (calculate_matching_score answers students
              (List.range answers.length) π).1)) 0 with hz | hmem
        · have hσ0 : List.range answers.length ∈ (combinations answers.length
              (List.range students.length)).flatMap permutations :=
            (mem_enum_iff _ _ _).mpr ⟨List.nodup_range _, List.length_range _,
              fun x hx => lt_of_lt_of_le (List.mem_range.mp hx) hnm⟩
          refine ⟨(List.range answers.length).zip (List.range answers.length),
            zip_range_valid_pairing _ _ _ hnm (List.nodup_range _) (List.length_range _)
              (fun x hx => lt_of_lt_of_le (List.mem_range.mp hx) hnm), ?_⟩
          have hle : (calculate_matching_score answers students (List.range answers.length)
              (List.range answers.length)).1 ≤ 0 := by
            rw [← hz]
            exact foldl_max_le_of_mem 0 (List.mem_map_of_mem _ hσ0)
          rw [h1, hz, ← cms_fst]
          omega
        · obtain ⟨σ, hσL, hσeq⟩ := List.mem_map.mp hmem
          obtain ⟨hσnd, hσlen, hσb⟩ := (mem_enum_iff _ _ _).mp hσL
          refine ⟨(List.range answers.length).zip σ,
            zip_range_valid_pairing _ _ _ hnm hσnd hσlen hσb, ?_⟩
          rw [h1, ← hσeq]
          exact (cms_fst _ _ _ _).symm
    · have hmn : students.length ≤ answers.length := le_of_not_le hnm
      have hcase : calculate_optimal_matching_bruteforce answers students =
          find_best_matching_generic answers students (List.range students.length)
            answers.length students.length "student" 0 := by
        unfold calculate_optimal_matching_bruteforce
        rw [if_neg hne, if_neg hnm]
      obtain ⟨h1, h2, h3⟩ := foldl_best_spec
        (fun π => (calculate_matching_score answers students π (List.range students.length)).1)
        (fun π => ((calculate_matching_score answers students π (List.range students.length)).2,
          π, List.range students.length))
        ((combinations students.length (List.range answers.length)).flatMap permutations)
        0 ([], [], [])
      rw [hcase, find_best_student_role]
      constructor
      · intro p hp
        obtain ⟨hplen, hfnd, hsnd, hbnd⟩ := hp
        obtain ⟨σ, hσperm, hσsum, hσlen⟩ := sort_pairs_by_fst
          (fun pr => compare_links (answers.getD pr.2 defaultLink)
            (students.getD pr.1 defaultLink))
          (p.map Prod.swap) students.length
          (by rw [List.map_map]; exact hsnd)
          (by rw [List.length_map, hplen]; exact min_eq_right hmn)
          (by
            intro pr hpr
            obtain ⟨q, hq, rfl⟩ := List.mem_map.mp hpr
            exact (hbnd q hq).2)
        have hσnodup : σ.Nodup := by
          have hms : (p.map Prod.swap).map Prod.snd = p.map Prod.fst := by
            rw [List.map_map]
            exact rfl
          exact hσperm.nodup_iff.mpr (hms ▸ hfnd)
        have hσb : ∀ x ∈ σ, x < answers.length := by
          intro x hx
          have hx2 := hσperm.subset hx
          rw [List.map_map] at hx2
          obtain ⟨pr, hpr, rfl⟩ := List.mem_map.mp hx2
          exact (hbnd pr hpr).1
        have hσmem : σ ∈ (combinations students.length
            (List.range answers.length)).flatMap permutations :=
          (mem_enum_iff _ _ _).mpr ⟨hσnodup, hσlen, hσb⟩
        rw [h1]
        have heq : pairing_score answers students p =
            (calculate_matching_score answers students σ (List.range students.length)).1 := by
          have e1 : (calculate_matching_score answers students σ
              (List.range students.length)).1 =
              (((List.range students.length).zip σ).map
                (fun pr => compare_links (answers.getD pr.2 defaultLink)
                  (students.getD pr.1 defaultLink))).sum :=
            zip_swap_map_sum _ σ (List.range students.length)
          rw [e1, hσsum, List.map_map]
          rfl
        rw [heq]
        exact foldl_max_le_of_mem 0 (List.mem_map_of_mem _ hσmem)
      · rcases foldl_max_mem (((combinations students.length
            (List.range answers.length)).flatMap permutations).map
            (fun π => (calculate_matching_score answers students π
              (List.range students.length)).1)) 0 with hz | hmem
        · have hσ0 : List.range students.length ∈ (combinations students.length
              (List.range answers.length)).flatMap permutations :=
            (mem_enum_iff _ _ _).mpr ⟨List.nodup_range _, List.length_range _,
              fun x hx => lt_of_lt_of_le (List.mem_range.mp hx) hmn⟩
          refine ⟨(List.range students.length).zip (List.range students.length),
            zip_range_valid_pairing' _ _ _ hmn (List.nodup_range _) (List.length_range _)
              (fun x hx => lt_of_lt_of_le (List.mem_range.mp hx) hmn), ?_⟩
          have hle : (calculate_matching_score answers students (List.range students.length)
              (List.range students.length)).1 ≤ 0 := by
            rw [← hz]
            exact foldl_max_le_of_mem 0 (List.mem_map_of_mem _ hσ0)
          rw [h1, hz, ← cms_fst]
          omega
        · obtain ⟨σ, hσL, hσeq⟩ := List.mem_map.mp hmem
          obtain ⟨hσnd, hσlen, hσb⟩ := (mem_enum_iff _ _ _).mp hσL
          refine ⟨σ.zip (List.range students.length),
            zip_range_valid_pairing' _ _ _ hmn hσnd hσlen hσb, ?_⟩
          rw [h1, ← hσeq]
          exact (cms_fst _ _ _ _).symm

/-- Witness for C1: the empty case, and optimality at a one-vs-one input
where the identical pairing attains the returned best score. -/
theorem c1_bruteforce_optimal_witness :
    calculate_optimal_matching_bruteforce [] [(∅, ∅, "")] = (0, [], [], []) ∧
    ∃ p, ValidPairing 1 1 p ∧
      pairing_score [({"A"}, {"B"}, "c")] [({"A"}, {"B"}, "c")] p =
        (calculate_optimal_matching_bruteforce [({"A"}, {"B"}, "c")]
          [({"A"}, {"B"}, "c")]).1 := by
  constructor
  · exact (c1_bruteforce_optimal [] [(∅, ∅, "")]).1 (Or.inl rfl)
  · exact ((c1_bruteforce_optimal [({"A"}, {"B"}, "c")] [({"A"}, {"B"}, "c")]).2
      (List.cons_ne_nil _ _) (List.cons_ne_nil _ _)).2

theorem find?_map_comp {γ δ : Type} (F : γ → δ) (q : δ → Bool) (l : List γ) (c0 : γ)
    (h : l.find? (fun c => q (F c)) = some c0) :
    (l.map F).find? q = some (F c0) := by
  rw [List.find?_map]
  have hq : (q ∘ F) = (fun c => q (F c)) := rfl
  rw [hq, h]
  rfl

/-- Counterexample to C6 as stated: with one reference link and one
learner link sharing no node and no label, every candidate pairing scores
0, so the solver returns its initial state — score 0 with an **empty**
assignment — not a size-`min(n,m) = 1` first-encountered maximal
assignment. -/
theorem c6_counterexample :
    calculate_optimal_matching_bruteforce [({"A"}, {"B"}, "x")] [({"C"}, {"D"}, "y")] =
      (0, [], [], []) ∧
    (calculate_optimal_matching_bruteforce [({"A"}, {"B"}, "x")]
      [({"C"}, {"D"}, "y")]).2.1.length ≠ min 1 1 := by
  exact ⟨by decide, by decide⟩

/-- C6 (amended): for non-empty inputs, when the maximal candidate score
is positive the solver returns the first-encountered maximal candidate
under its iteration order (size-`min(n,m)` combinations of the larger
side in ascending index order, then permutations of each), and the
returned assignment then is a size-`min(n,m)` list of
(referenceIndex, learnerIndex) pairs; when every candidate scores 0 it
returns score 0 with an empty assignment and empty used-index lists. -/
theorem c6_first_max_assignment (answers students : List Link)
    (hA : answers ≠ []) (hS : students ≠ []) :
    (0 < (calculate_optimal_matching_bruteforce answers students).1 →
      (lea_candidate_outputs answers students).find?
          (fun t => t.1 == (calculate_optimal_matching_bruteforce answers students).1) =
        some (calculate_optimal_matching_bruteforce answers students) ∧
      (calculate_optimal_matching_bruteforce answers students).2.1.length =
        min answers.length students.length) ∧
    ((calculate_optimal_matching_bruteforce answers students).1 = 0 →
      calculate_optimal_matching_bruteforce answers students = (0, [], [], [])) := by
  have hne : ¬(answers.length = 0 ∨ students.length = 0) := by
    rw [not_or]
    constructor
    · simpa [List.length_eq_zero] using hA
    · simpa [List.length_eq_zero] using hS
  by_cases hnm : answers.length ≤ students.length
  · have hcase : calculate_optimal_matching_bruteforce answers students =
        ((combinations answers.length (List.range students.length)).flatMap
            permutations).foldl
          (fun st π =>
            if (calculate_matching_score answers students
                (List.range answers.length) π).1 > st.1 then
              ((calculate_matching_score answers students (List.range answers.length) π).1,
                (calculate_matching_score answers students (List.range answers.length) π).2,
                List.range answers.length, π)
            else st)
          (0, [], [], []) := by
      unfold calculate_optimal_matching_bruteforce
      rw [if_neg hne, if_pos hnm]
      exact find_best_answer_role answers students (List.range answers.length)
        students.length answers.length
    have hout : lea_candidate_outputs answers students =
        ((combinations answers.length (List.range students.length)).flatMap
            permutations).map
          (fun π =>
            ((calculate_matching_score answers students (List.range answers.length) π).1,
              (calculate_matching_score answers students (List.range answers.length) π).2,
              List.range answers.length, π)) := by
      unfold lea_candidate_outputs
      rw [if_pos hnm]
    obtain ⟨h1, h2, h3⟩ := foldl_best_spec
      (fun π => (calculate_matching_score answers students (List.range answers.length) π).1)
      (fun π => ((calculate_matching_score answers students (List.range answers.length) π).2,
        List.range answers.length, π))
      ((combinations answers.length (List.range students.length)).flatMap permutations)
      0 ([], [], [])
    rw [hcase, hout]
    constructor
    · intro hpos
      obtain ⟨c0, hfind, hres⟩ := h3 hpos
      have hmemc0 := List.mem_of_find?_eq_some hfind
      obtain ⟨hc0nd, hc0len, hc0b⟩ := (mem_enum_iff _ _ _).mp hmemc0
      constructor
      · rw [hres] at hfind
        rw [hres]
        exact find?_map_comp _ _ _ c0 hfind
      · rw [hres]
        show ((List.range answers.length).zip c0).length = _
        rw [List.length_zip, List.length_range, hc0len, min_self]
        exact (min_eq_left hnm).symm
    · intro hz
      exact h2 hz
  · have hmn : students.length ≤ answers.length := le_of_not_le hnm
    have hcase : calculate_optimal_matching_bruteforce answers students =
        ((combinations students.length (List.range answers.length)).flatMap
            permutations).foldl
          (fun st π =>
            if (calculate_matching_score answers students π
                (List.range students.length)).1 > st.1 then
              ((calculate_matching_score answers students π (List.range students.length)).1,
                (calculate_matching_score answers students π (List.range students.length)).2,
                π, List.range students.length)
            else st)
          (0, [], [], []) := by
      unfold calculate_optimal_matching_bruteforce
      rw [if_neg hne, if_neg hnm]
      exact find_best_student_role answers students (List.range students.length)
        answers.length students.length
    have hout : lea_candidate_outputs answers students =
        ((combinations students.length (List.range answers.length)).flatMap
            permutations).map
          (fun π =>
            ((calculate_matching_score answers students π (List.range students.length)).1,
              (calculate_matching_score answers students π (List.range students.length)).2,
              π, List.range students.length)) := by
      unfold lea_candidate_outputs
      rw [if_neg hnm]
    obtain ⟨h1, h2, h3⟩ := foldl_best_spec
      (fun π => (calculate_matching_score answers students π (List.range students.length)).1)
      (fun π => ((calculate_matching_score answers students π (List.range students.length)).2,
        π, List.range students.length))
      ((combinations students.length (List.range answers.length)).flatMap permutations)
      0 ([], [], [])
    rw [hcase, hout]
    constructor
    · intro hpos
      obtain ⟨c0, hfind, hres⟩ := h3 hpos
      have hmemc0 := List.mem_of_find?_eq_some hfind
      obtain ⟨hc0nd, hc0len, hc0b⟩ := (mem_enum_iff _ _ _).mp hmemc0
      constructor
      · rw [hres] at hfind
        rw [hres]
        exact find?_map_comp _ _ _ c0 hfind
      · rw [hres]
        show (c0.zip (List.range students.length)).length = _
        rw [List.length_zip, List.length_range, hc0len, min_self]
        exact (min_eq_right hmn).symm
    · intro hz
      exact h2 hz

/-- Witness for C6 (amended): at a one-vs-one input with an exact match,
the solver's result is the first maximal candidate and pairs one link. -/
theorem c6_first_max_assignment_witness :
    (lea_candidate_outputs [({"A"}, {"B"}, "c")] [({"A"}, {"B"}, "c")]).find?
        (fun t => t.1 == (calculate_optimal_matching_bruteforce [({"A"}, {"B"}, "c")]
          [({"A"}, {"B"}, "c")]).1) =
      some (calculate_optimal_matching_bruteforce [({"A"}, {"B"}, "c")]
        [({"A"}, {"B"}, "c")]) ∧
    (calculate_optimal_matching_bruteforce [({"A"}, {"B"}, "c")]
      [({"A"}, {"B"}, "c")]).2.1.length = 1 := by
  have h := (c6_first_max_assignment [({"A"}, {"B"}, "c")] [({"A"}, {"B"}, "c")]
    (List.cons_ne_nil _ _) (List.cons_ne_nil _ _)).1 (by decide)
  exact ⟨h.1, h.2⟩

theorem validate_indices_ok (indices : List Int) (maxIndex : Nat) (label : String)
    (h : ∀ i ∈ indices, 0 ≤ i ∧ i < (maxIndex : Int)) :
    validate_indices indices maxIndex label = .ok () := by
  unfold validate_indices
  rw [show indices.find? (fun idx => idx < 0 || (maxIndex : Int) ≤ idx) = none from
    List.find?_eq_none.mpr ?_]
  intro x hx
  obtain ⟨h1, h2⟩ := h x hx
  simp only [Bool.or_eq_true, decide_eq_true_eq]
  push_neg
  exact ⟨by omega, by omega⟩

theorem validate_indices_error (indices : List Int) (maxIndex : Nat) (label : String)
    (h : ∃ i ∈ indices, i < 0 ∨ (maxIndex : Int) ≤ i) :
    ∃ e, validate_indices indices maxIndex label = .error e := by
  have hsome : (indices.find? (fun idx => idx < 0 || (maxIndex : Int) ≤ idx)).isSome := by
    rw [List.find?_isSome]
    obtain ⟨i, hi, hbad⟩ := h
    refine ⟨i, hi, ?_⟩
    simp only [Bool.or_eq_true, decide_eq_true_eq]
    exact hbad
  obtain ⟨v, hv⟩ := Option.isSome_iff_exists.mp hsome
  refine ⟨"IndexError: invalid " ++ label ++ " index", ?_⟩
  unfold validate_indices
  rw [hv]

theorem getElem?_isSome_iff_lt {α : Type} (l : List α) (n : Nat) :
    l[n]?.isSome = true ↔ n < l.length := by
  rw [Option.isSome_iff_exists]
  constructor
  · rintro ⟨a, ha⟩
    obtain ⟨h, _⟩ := List.getElem?_eq_some_iff.mp ha
    exact h
  · intro h
    exact ⟨l.get ⟨n, h⟩, List.getElem?_eq_some_iff.mpr ⟨h, rfl⟩⟩

theorem pyGetLink_isSome_iff (l : List Link) (i : Int) :
    (pyGetLink l i).isSome = true ↔ (-(l.length : Int) ≤ i ∧ i < (l.length : Int)) := by
  unfold pyGetLink
  by_cases h0 : 0 ≤ i
  · rw [if_pos h0, getElem?_isSome_iff_lt]
    omega
  · rw [if_neg h0]
    by_cases h1 : 0 ≤ (l.length : Int) + i
    · rw [if_pos h1, getElem?_isSome_iff_lt]
      omega
    · rw [if_neg h1]
      simp only [Option.isSome_none, Bool.false_eq_true, false_iff]
      omega

theorem wlea_foldlM_ok (answers students : List Link) :
    ∀ (L : List (Int × Int)) (acc : Nat × List (Int × Int)),
      (∀ pr ∈ L, (pyGetLink answers pr.1).isSome = true ∧
        (pyGetLink students pr.2).isSome = true) →
      L.foldlM (fun acc pr =>
          match pyGetLink answers pr.1, pyGetLink students pr.2 with
          | some answerLink, some studentLink =>
            Except.ok (acc.1 + compare_links answerLink studentLink, acc.2 ++ [pr])
          | _, _ =>
            (Except.error "IndexError: list index out of range" :
              Except String (Nat × List (Int × Int)))) acc =
        Except.ok (acc.1 + (L.map (fun pr =>
            compare_links ((pyGetLink answers pr.1).getD defaultLink)
              ((pyGetLink students pr.2).getD defaultLink))).sum,
          acc.2 ++ L) := by
  intro L
  induction L with
  | nil =>
    intro acc _
    simp only [List.map_nil, List.sum_nil, Nat.add_zero, List.append_nil, List.foldlM_nil]
    rfl
  | cons pr L ih =>
    intro acc h
    obtain ⟨ha, hs⟩ := h pr (List.mem_cons_self pr L)
    obtain ⟨a, hae⟩ := Option.isSome_iff_exists.mp ha
    obtain ⟨s, hse⟩ := Option.isSome_iff_exists.mp hs
    rw [List.foldlM_cons]
    have hstep : (match pyGetLink answers pr.1, pyGetLink students pr.2 with
        | some answerLink, some studentLink =>
          Except.ok (acc.1 + compare_links answerLink studentLink, acc.2 ++ [pr])
        | _, _ =>
          (Except.error "IndexError: list index out of range" :
            Except String (Nat × List (Int × Int)))) =
        Except.ok (acc.1 + compare_links a s, acc.2 ++ [pr]) := by
      rw [hae, hse]
    rw [hstep]
    show (L.foldlM _ (acc.1 + compare_links a s, acc.2 ++ [pr])) = _
    rw [ih (acc.1 + compare_links a s, acc.2 ++ [pr])
      (fun q hq => h q (List.mem_cons_of_mem pr hq))]
    congr 1
    refine Prod.ext ?_ ?_
    · show acc.1 + compare_links a s + _ = acc.1 + _
      rw [List.map_cons, List.sum_cons, hae, hse]
      show acc.1 + compare_links a s + _ =
        acc.1 + (compare_links a s + _)
      omega
    · show acc.2 ++ [pr] ++ L = acc.2 ++ pr :: L
      rw [List.append_assoc]
      rfl

theorem wlea_foldlM_error (answers students : List Link) :
    ∀ (L : List (Int × Int)) (acc : Nat × List (Int × Int)),
      (∃ pr ∈ L, pyGetLink answers pr.1 = none ∨ pyGetLink students pr.2 = none) →
      ∃ e, L.foldlM (fun acc pr =>
          match pyGetLink answers pr.1, pyGetLink students pr.2 with
          | some answerLink, some studentLink =>
            Except.ok (acc.1 + compare_links answerLink studentLink, acc.2 ++ [pr])
          | _, _ =>
            (Except.error "IndexError: list index out of range" :
              Except String (Nat × List (Int × Int)))) acc = Except.error e := by
  intro L
  induction L with
  | nil =>
    intro acc h
    obtain ⟨pr, hpr, _⟩ := h
    cases hpr
  | cons pr L ih =>
    intro acc h
    obtain ⟨q, hq, hbad⟩ := h
    rcases List.mem_cons.mp hq with rfl | hq'
    · cases hae : pyGetLink answers q.1 with
      | none =>
        cases hse : pyGetLink students q.2 with
        | none => exact ⟨_, by simp only [List.foldlM_cons, hae, hse]; rfl⟩
        | some s => exact ⟨_, by simp only [List.foldlM_cons, hae, hse]; rfl⟩
      | some a =>
        cases hse : pyGetLink students q.2 with
        | none => exact ⟨_, by simp only [List.foldlM_cons, hae, hse]; rfl⟩
        | some s =>
          rcases hbad with hb | hb
          · rw [hae] at hb; cases hb
          · rw [hse] at hb; cases hb
    · cases hae : pyGetLink answers pr.1 with
      | none =>
        cases hse : pyGetLink students pr.2 with
        | none => exact ⟨_, by simp only [List.foldlM_cons, hae, hse]; rfl⟩
        | some s => exact ⟨_, by simp only [List.foldlM_cons, hae, hse]; rfl⟩
      | some a =>
        cases hse : pyGetLink students pr.2 with
        | none => exact ⟨_, by simp only [List.foldlM_cons, hae, hse]; rfl⟩
        | some s =>
          obtain ⟨e, he⟩ := ih (acc.1 + compare_links a s, acc.2 ++ [pr]) ⟨q, hq', hbad⟩
          refine ⟨e, ?_⟩
          simp only [List.foldlM_cons, hae, hse]
          show L.foldlM _ (acc.1 + compare_links a s, acc.2 ++ [pr]) = Except.error e
          exact he

/-- Counterexample to C9 as stated: wlea_core's `_calculate_matching_score`
accepts the index `-1` — outside the valid range `0..len-1` of its
one-element link list — without raising: Python's negative indexing
silently reads the last element and the call returns a score. -/
theorem c9_counterexample :
    wlea_calculate_matching_score [({"A"}, {"B"}, "c")] [({"A"}, {"B"}, "c")]
        [(-1 : Int)] [(0 : Int)] =
      Except.ok (4, [((-1 : Int), (0 : Int))]) ∧
    ((-1 : Int) < 0 ∨ (1 : Int) ≤ (-1 : Int)) := by
  exact ⟨rfl, Or.inl (by decide)⟩

/-- C9 (amended): lea_core's `_calculate_matching_score` validates every
index of both lists — raising for any index outside `0 ≤ i < len`,
negative values included — and returns the summed `compare_links` score
over the zipped pairs when all indices are in range; wlea_core's
`_calculate_matching_score` performs no validation and raises only when
a zipped pair's index is out of bounds for Python list indexing
(`i ≥ len` or `i < -len`); a negative index in `[-len, -1]` is silently
accepted (indexing from the end of the list) and contributes a score. -/
theorem c9_index_validation (answers students : List Link)
    (answerIndices studentIndices : List Int) :
    ((∀ i ∈ answerIndices, 0 ≤ i ∧ i < (answers.length : Int)) →
      (∀ j ∈ studentIndices, 0 ≤ j ∧ j < (students.length : Int)) →
      lea_calculate_matching_score answers students answerIndices studentIndices =
        Except.ok (((answerIndices.zip studentIndices).map (fun pr =>
            compare_links (answers.getD pr.1.toNat defaultLink)
              (students.getD pr.2.toNat defaultLink))).sum,
          answerIndices.zip studentIndices)) ∧
    (((∃ i ∈ answerIndices, i < 0 ∨ (answers.length : Int) ≤ i) ∨
      (∃ j ∈ studentIndices, j < 0 ∨ (students.length : Int) ≤ j)) →
      ∃ e, lea_calculate_matching_score answers students answerIndices studentIndices =
        Except.error e) ∧
    ((∀ pr ∈ answerIndices.zip studentIndices,
        (-(answers.length : Int) ≤ pr.1 ∧ pr.1 < (answers.length : Int)) ∧
        (-(students.length : Int) ≤ pr.2 ∧ pr.2 < (students.length : Int))) →
      wlea_calculate_matching_score answers students answerIndices studentIndices =
        Except.ok (((answerIndices.zip studentIndices).map (fun pr =>
            compare_links ((pyGetLink answers pr.1).getD defaultLink)
              ((pyGetLink students pr.2).getD defaultLink))).sum,
          answerIndices.zip studentIndices)) ∧
    ((∃ pr ∈ answerIndices.zip studentIndices,
        (pr.1 < -(answers.length : Int) ∨ (answers.length : Int) ≤ pr.1) ∨
        (pr.2 < -(students.length : Int) ∨ (students.length : Int) ≤ pr.2)) →
      ∃ e, wlea_calculate_matching_score answers students answerIndices studentIndices =
        Except.error e) := by
  refine ⟨?_, ?_, ?_, ?_⟩
  · intro hA hS
    unfold lea_calculate_matching_score
    rw [validate_indices_ok _ _ _ hA, validate_indices_ok _ _ _ hS]
  · intro h
    rcases h with h | h
    · obtain ⟨e, he⟩ := validate_indices_error answerIndices answers.length "answer" h
      refine ⟨e, ?_⟩
      unfold lea_calculate_matching_score
      rw [he]
    · cases hva : validate_indices answerIndices answers.length "answer" with
      | error e =>
        refine ⟨e, ?_⟩
        unfold lea_calculate_matching_score
        rw [hva]
      | ok u =>
        obtain ⟨e, he⟩ := validate_indices_error studentIndices students.length "student" h
        cases u
        refine ⟨e, ?_⟩
        unfold lea_calculate_matching_score
        rw [hva, he]
  · intro h
    have h' : ∀ pr ∈ answerIndices.zip studentIndices,
        (pyGetLink answers pr.1).isSome = true ∧ (pyGetLink students pr.2).isSome = true := by
      intro pr hpr
      obtain ⟨h1, h2⟩ := h pr hpr
      exact ⟨(pyGetLink_isSome_iff _ _).mpr h1, (pyGetLink_isSome_iff _ _).mpr h2⟩
    unfold wlea_calculate_matching_score
    rw [wlea_foldlM_ok answers students (answerIndices.zip studentIndices) (0, []) h']
    simp
  · intro h
    unfold wlea_calculate_matching_score
    apply wlea_foldlM_error
    obtain ⟨pr, hpr, hbad⟩ := h
    refine ⟨pr, hpr, ?_⟩
    rcases hbad with hb | hb
    · left
      cases hx : pyGetLink answers pr.1 with
      | none => rfl
      | some v =>
        have hiff := (pyGetLink_isSome_iff answers pr.1).mp (by rw [hx]; rfl)
        exfalso
        omega
    · right
      cases hx : pyGetLink students pr.2 with
      | none => rfl
      | some v =>
        have hiff := (pyGetLink_isSome_iff students pr.2).mp (by rw [hx]; rfl)
        exfalso
        omega

/-- Witness for C9 (amended): a fully in-range call returns the summed
score, and a call with the negative index `-1` raises in lea_core. -/
theorem c9_index_validation_witness :
    lea_calculate_matching_score [({"A"}, {"B"}, "c")] [({"A"}, {"B"}, "c")]
        [(0 : Int)] [(0 : Int)] = Except.ok (4, [((0 : Int), (0 : Int))]) ∧
    ∃ e, lea_calculate_matching_score [({"A"}, {"B"}, "c")] [({"A"}, {"B"}, "c")]
        [(-1 : Int)] [(0 : Int)] = Except.error e := by
  constructor
  · rw [(c9_index_validation [({"A"}, {"B"}, "c")] [({"A"}, {"B"}, "c")] [(0 : Int)]
      [(0 : Int)]).1 (by decide) (by decide)]
    rfl
  · exact (c9_index_validation [({"A"}, {"B"}, "c")] [({"A"}, {"B"}, "c")] [(-1 : Int)]
      [(0 : Int)]).2.1 (Or.inl ⟨-1, by decide, Or.inl (by decide)⟩)

/-- On in-range `Nat` indices the validated lea_core scorer agrees with
the pure in-range core `calculate_matching_score` used inside the solver
embedding. -/
theorem lea_matching_score_agrees (answers students : List Link)
    (aIdx sIdx : List Nat) (hA : ∀ i ∈ aIdx, i < answers.length)
    (hS : ∀ j ∈ sIdx, j < students.length) :
    lea_calculate_matching_score answers students (aIdx.map Int.ofNat)
        (sIdx.map Int.ofNat) =
      Except.ok ((calculate_matching_score answers students aIdx sIdx).1,
        (aIdx.zip sIdx).map (fun pr => (Int.ofNat pr.1, Int.ofNat pr.2))) := by
  have hA' : ∀ i ∈ aIdx.map Int.ofNat, 0 ≤ i ∧ i < (answers.length : Int) := by
    intro i hi
    obtain ⟨j, hj, rfl⟩ := List.mem_map.mp hi
    have := hA j hj
    simp only [Int.ofNat_eq_natCast]
    constructor <;> omega
  have hS' : ∀ j ∈ sIdx.map Int.ofNat, 0 ≤ j ∧ j < (students.length : Int) := by
    intro j hj
    obtain ⟨k, hk, rfl⟩ := List.mem_map.mp hj
    have := hS k hk
    simp only [Int.ofNat_eq_natCast]
    constructor <;> omega
  unfold lea_calculate_matching_score
  rw [validate_indices_ok _ _ _ hA', validate_indices_ok _ _ _ hS']
  simp only [List.zip_map, List.map_map]
  rfl
